import Mathlib

/-!
Verification development for the real-time coordination core of the
nearby-connect repository: the `ChatRoomDurableObject` (RoomCoordinator,
`src/backend/src/lib/chat-room-durable-object.ts`) and the
`PresenceDurableObject` (PresenceCoordinator, second segment of
`src/backend/src/lib/feed-service.ts`), plus the HTTP worker routes that
forward to them.

JavaScript `Map`s are modelled as insertion-ordered association lists
`List (String × α)` (JS maps preserve insertion order; `set` replaces in
place, `delete` removes the unique entry).  JS `Set`s of strings are
duplicate-free `List String` in insertion order.  `Date.now()` is a `Nat`
parameter `now`; `crypto.randomUUID()` is an explicitly supplied fresh
string.  A WebSocket's transport is summarised by the three behaviours the
coordinator code can distinguish: `readyState === OPEN` with a succeeding
`send`, `OPEN` with a throwing `send`, and not-`OPEN`.
-/

namespace NearbyConnect

/-- Transport behaviour of one WebSocket, as observable by the coordinator:
`readyState === WebSocket.OPEN` and whether `ws.send` throws. -/
inductive WsState where
  | openOk : WsState
  | openThrow : WsState
  | closedWs : WsState
deriving Repr, DecidableEq

/-- `ws.readyState === WebSocket.OPEN`. -/
def WsState.isOpen : WsState → Bool
  | .openOk => true
  | .openThrow => true
  | .closedWs => false

/-- The connection reports open and `ws.send` succeeds (no exception). -/
def WsState.sendOk : WsState → Bool
  | .openOk => true
  | _ => false

/-- JS `Map.prototype.get`. -/
def mapGet (k : String) : List (String × α) → Option α
  | [] => none
  | (k', v) :: rest => if k' = k then some v else mapGet k rest

/-- JS `Map.prototype.set`: replace the entry in place when the key is
present, append it otherwise (insertion order is preserved). -/
def mapSet (k : String) (v : α) : List (String × α) → List (String × α)
  | [] => [(k, v)]
  | (k', v') :: rest => if k' = k then (k, v) :: rest else (k', v') :: mapSet k v rest

/-- JS `Map.prototype.delete`: drop the entry holding the key (JS maps hold
at most one entry per key). -/
def mapDelete (k : String) : List (String × α) → List (String × α)
  | [] => []
  | (k', v') :: rest => if k' = k then rest else (k', v') :: mapDelete k rest

/-- The keys of an association list, in order. -/
def mapKeys (l : List (String × α)) : List String := l.map Prod.fst

/-- Delete a whole list of keys, first to last. -/
def mapDeleteAll (ks : List String) (l : List (String × α)) : List (String × α) :=
  ks.foldl (fun acc k => mapDelete k acc) l

/-- JS `Set.prototype.add` on a duplicate-free list. -/
def setAdd (x : String) (s : List String) : List String :=
  if x ∈ s then s else s ++ [x]

/-! ### RoomCoordinator: `ChatRoomDurableObject` -/

/-- One outbound event of the ChatRoom coordinator, i.e. the `{type, data}`
object handed to `broadcastMessage` before `JSON.stringify`.  Unused fields
of a given `etype` keep their defaults; `JSON.stringify` is injective on
these shapes, so sending the serialized string is modelled as sending the
event value itself. -/
structure RoomEvent where
  etype : String
  userId : String := ""
  evId : String := ""
  content : String := ""
  msgType : String := ""
  senderId : String := ""
  status : String := ""
  typingFlag : Bool := false
  timestamp : Nat := 0
deriving Repr, DecidableEq

/-- The `{type:"presence", data:{userId, status:"offline", timestamp}}`
event that `removeConnection` broadcasts when a user's last connection is
removed. -/
def offlineEvent (userId : String) (now : Nat) : RoomEvent :=
  { etype := "presence", userId := userId, status := "offline", timestamp := now }

/-- In-memory state of one `ChatRoomDurableObject` instance:
`connections`, `userConnections`, `typingUsers`, `heartbeatIntervals`. -/
structure ChatRoomState where
  connections : List (String × WsState)
  userConnections : List (String × List String)
  typingUsers : List String
  heartbeatIntervals : List (String × Nat)
deriving Repr, DecidableEq

/-- The first pass of a broadcast (`for (const [connectionId, ws] of map)`):
walk the registry in order; a connection whose transport reports open gets
`ws.send(messageStr)` (recorded as a delivery when the send does not
throw), every connection that is not open or whose send threw is recorded
in `deadConnections`.  Returns (deliveries, dead ids), both in registry
order.  Nothing is removed during this pass. -/
def broadcastScan {ε : Type} (ev : ε) : List (String × WsState) → List (String × ε) × List String
  | [] => ([], [])
  | (cid, ws) :: rest =>
    let sd := broadcastScan ev rest
    if ws.sendOk then ((cid, ev) :: sd.1, sd.2) else (sd.1, cid :: sd.2)

/-- The `userConnections` part of `removeConnection`: find the first user
set containing the id, delete the id from it, and when the set becomes
empty delete the user and report them (the code then broadcasts their
offline status); `break` after the first hit. -/
def removeUserConn (cid : String) : List (String × List String) →
    List (String × List String) × Option String
  | [] => ([], none)
  | (u, s) :: rest =>
    if cid ∈ s then
      let s' := s.erase cid
      if s'.isEmpty then (rest, some u)
      else ((u, s') :: rest, none)
    else
      let r := removeUserConn cid rest
      ((u, s) :: r.1, r.2)

/-- The body of `broadcastMessage`, parameterized by the remover used for
the second pass: serialize once, first pass collects deliveries and dead
ids over the unmodified registry, second pass
(`for (const connectionId of deadConnections)`) unregisters every recorded
dead id in order, accumulating any deliveries those removals cause. -/
def broadcastWith (remover : String → ChatRoomState → ChatRoomState × List (String × RoomEvent))
    (ev : RoomEvent) (st : ChatRoomState) : ChatRoomState × List (String × RoomEvent) :=
  let sd := broadcastScan ev st.connections
  let r := sd.2.foldl (fun acc c =>
      let r1 := remover c acc.1
      (r1.1, acc.2 ++ r1.2)) (st, ([] : List (String × RoomEvent)))
  (r.1, sd.1 ++ r.2)

/-- `removeConnection` of `ChatRoomDurableObject`: close and drop the
stream from `connections`, clear and drop the heartbeat timer, remove the
id from its owner's set in `userConnections`; when that set becomes empty,
delete the user and broadcast a `presence`/`offline` event for them (the
returned list collects the `ws.send` deliveries of that nested broadcast,
whose own second pass prunes further dead connections with the same
procedure).  `fuel` bounds the remove→broadcast→remove recursion depth;
any fuel above the number of live connections is enough, and the facts
proved below hold for every fuel. -/
def removeConnection : Nat → Nat → String → ChatRoomState →
    ChatRoomState × List (String × RoomEvent)
  | 0, _, _, st => (st, [])
  | f + 1, now, cid, st =>
    let ruc := removeUserConn cid st.userConnections
    let st1 : ChatRoomState :=
      { st with connections := mapDelete cid st.connections,
                heartbeatIntervals := mapDelete cid st.heartbeatIntervals,
                userConnections := ruc.1 }
    match ruc.2 with
    | some u => broadcastWith (removeConnection f now) (offlineEvent u now) st1
    | none => (st1, [])

/-- `broadcastMessage` of `ChatRoomDurableObject`: the two-pass engine with
`removeConnection` as the second-pass remover. -/
def broadcastMessage (fuel : Nat) (now : Nat) (ev : RoomEvent) (st : ChatRoomState) :
    ChatRoomState × List (String × RoomEvent) :=
  broadcastWith (removeConnection fuel now) ev st

/-- The registration part of `handleWebSocketUpgrade`: store the accepted
server socket under a fresh connection id, add the id to the caller's
connection set (creating it if absent), and start the heartbeat timer. -/
def registerConnection (cid uid : String) (ws : WsState) (st : ChatRoomState) : ChatRoomState :=
  let uc0 := if (mapGet uid st.userConnections).isSome then st.userConnections
             else mapSet uid [] st.userConnections
  let uc := match mapGet uid uc0 with
            | some s => mapSet uid (setAdd cid s) uc0
            | none => uc0
  { st with connections := mapSet cid ws st.connections,
            userConnections := uc,
            heartbeatIntervals := mapSet cid 0 st.heartbeatIntervals }

/-- A registry operation: `register` is the bookkeeping of a successful
subscribe (ids are generated by `crypto.randomUUID`, hence fresh);
`unregister` is `removeConnection`, reached from close, error, failed
heartbeat or broadcast-prune. -/
inductive RoomOp where
  | register (cid uid : String) (ws : WsState)
  | unregister (cid : String)
deriving Repr, DecidableEq

def applyRoomOp (fuel now : Nat) (st : ChatRoomState) : RoomOp → ChatRoomState
  | .register cid uid ws => registerConnection cid uid ws st
  | .unregister cid => (removeConnection fuel now cid st).1

def applyRoomOps (fuel now : Nat) (ops : List RoomOp) (st : ChatRoomState) : ChatRoomState :=
  ops.foldl (applyRoomOp fuel now) st

/-- Every `register` in the sequence uses a connection id that is not
currently registered (`crypto.randomUUID` freshness, the spec's
"ids are assumed caller-unique"). -/
def admissibleOps (fuel now : Nat) : List RoomOp → ChatRoomState → Bool
  | [], _ => true
  | op :: rest, st =>
    (match op with
     | .register cid _ _ => (mapGet cid st.connections).isNone
     | .unregister _ => true)
    && admissibleOps fuel now rest (applyRoomOp fuel now st op)

/-- Number of `userConnections` entries whose set contains the id. -/
def ownersL (cid : String) (uc : List (String × List String)) : Nat :=
  (uc.filter (fun p => decide (cid ∈ p.2))).length

/-- Registry invariant of a coordinator instance: connection keys are
unique, user keys are unique, the connection-id sets are duplicate-free,
every id in a user's set is a key of `connections`, and every key of
`connections` lies in exactly one user's set. -/
@[reducible] def RegistryInv (st : ChatRoomState) : Prop :=
  (mapKeys st.connections).Nodup ∧
  (mapKeys st.userConnections).Nodup ∧
  (∀ p ∈ st.userConnections, p.2.Nodup) ∧
  (∀ p ∈ st.userConnections, ∀ cid ∈ p.2, cid ∈ mapKeys st.connections) ∧
  (∀ p ∈ st.connections, ownersL p.1 st.userConnections = 1)

/-- Body of a publish-message request, after JSON parsing. -/
structure MessagePayload where
  content : String
  msgType : String
deriving Repr, DecidableEq

/-- The `message` event built by `handleMessageRequest`: a freshly
generated id, the caller's id as sender, `Date.now()` as timestamp. -/
def messageEvent (uuid : String) (now : Nat) (senderId : String) (body : MessagePayload) : RoomEvent :=
  { etype := "message", evId := uuid, content := body.content, msgType := body.msgType,
    senderId := senderId, timestamp := now }

/-- `handleMessageRequest` (POST `/message`): reject empty content or type
with 400, otherwise serialize the event once and broadcast it to all
connections; returns (HTTP status, new state) and the deliveries. -/
def handleMessageRequest (fuel : Nat) (uuid : String) (now : Nat) (userId : String)
    (body : MessagePayload) (st : ChatRoomState) :
    (Nat × ChatRoomState) × List (String × RoomEvent) :=
  if body.content = "" ∨ body.msgType = "" then ((400, st), [])
  else
    let r := broadcastMessage fuel now (messageEvent uuid now userId body) st
    ((200, r.1), r.2)

/-- The `switch (url.pathname)` dispatch of `ChatRoomDurableObject.fetch`. -/
inductive RoomEndpoint where
  | websocketEp | messageEp | typingEp | presenceEp
deriving Repr, DecidableEq

def roomRoute : String → Option RoomEndpoint
  | "/websocket" => some .websocketEp
  | "/message" => some .messageEp
  | "/typing" => some .typingEp
  | "/presence" => some .presenceEp
  | _ => none

/-- One row inserted into the `messages` table by
`persistMessageToDatabase`. -/
structure StoredMessage where
  msgId : String
  chatId : String
  senderId : String
  content : String
  msgType : String
  sentAt : Nat
deriving Repr, DecidableEq

/-- `persistMessageToDatabase` (worker, src/unnamed/part_016): insert a row
whose id is a fresh `crypto.randomUUID()` — generated here, independent of
the id the Durable Object put into the broadcast event. -/
def persistMessageToDatabase (uuid : String) (now : Nat) (chatId userId : String)
    (body : MessagePayload) (db : List StoredMessage) : List StoredMessage :=
  db ++ [{ msgId := uuid, chatId := chatId, senderId := userId,
           content := body.content, msgType := body.msgType, sentAt := now }]

/-- The worker route `POST /api/chat/:chatId/message`: validate, forward a
request with pathname `"/chat/" ++ chatId ++ "/message"` to the room DO's
`fetch` dispatch, and if the response is ok also persist the body to the
database.  `uuids` supplies the `crypto.randomUUID()` draws in order (the
DO's event id first, the DB row id second).  Returns (status, room state,
deliveries, database). -/
def routeSendMessage (fuel : Nat) (uuids : List String) (now : Nat) (chatId userId : String)
    (body : MessagePayload) (st : ChatRoomState) (db : List StoredMessage) :
    Nat × ChatRoomState × List (String × RoomEvent) × List StoredMessage :=
  if chatId = "" then (400, st, [], db)
  else if body.content = "" ∨ body.msgType = "" then (400, st, [], db)
  else
    let path := "/chat/" ++ chatId ++ "/message"
    let fwd :=
      match roomRoute path with
      | some .messageEp => handleMessageRequest fuel (uuids.headD "") now userId body st
      | _ => ((404, st), [])
    let db' := if fwd.1.1 = 200
               then persistMessageToDatabase ((uuids.drop 1).headD "") now chatId userId body db
               else db
    (fwd.1.1, fwd.1.2, fwd.2, db')

/-! ### PresenceCoordinator: `PresenceDurableObject` -/

/-- The `UserPresence` interface of feed-service.ts.  `isTyping` and
`typingInChatId` start out absent (`undefined`) and are written by the
typing handler and the sweeps. -/
structure UserPresence where
  userId : String
  status : String
  lastSeenAt : Nat
  deviceInfo : Option String := none
  currentChatId : Option String := none
  isTypingFlag : Option Bool := none
  typingInChatId : Option String := none
deriving Repr, DecidableEq

/-- The `TypingIndicator` interface of feed-service.ts. -/
structure TypingIndicator where
  userId : String
  chatId : String
  timestamp : Nat
deriving Repr, DecidableEq

/-- The events `PresenceDurableObject` hands to
`broadcastPresenceUpdate` (plus the snapshot, which is unicast and
modelled separately). -/
inductive PEvent where
  | presenceUpdate (p : UserPresence)
  | typingStart (t : TypingIndicator)
  | typingStop (userId chatId : String) (timestamp : Nat)
deriving Repr, DecidableEq

/-- In-memory state of the single `PresenceDurableObject` instance. -/
structure PresenceState where
  userPresence : List (String × UserPresence)
  typingIndicators : List (String × TypingIndicator)
  presenceSubscribers : List (String × WsState)
  heartbeatIntervals : List (String × Nat)
deriving Repr, DecidableEq

/-- `removePresenceSubscriber`: close the socket, drop it from
`presenceSubscribers`, clear and drop its heartbeat timer.  It touches
nothing else — in particular neither `userPresence` nor
`typingIndicators` — and performs no send. -/
def removePresenceSubscriber (cid : String) (st : PresenceState) : PresenceState :=
  { st with presenceSubscribers := mapDelete cid st.presenceSubscribers,
            heartbeatIntervals := mapDelete cid st.heartbeatIntervals }

/-- `broadcastPresenceUpdate`: stringify once, first pass over the
subscriber registry collecting deliveries and dead ids, second pass
unregistering the dead ids via `removePresenceSubscriber`. -/
def broadcastPresenceUpdate (ev : PEvent) (st : PresenceState) :
    PresenceState × List (String × PEvent) :=
  let sd := broadcastScan ev st.presenceSubscribers
  (sd.2.foldl (fun acc cid => removePresenceSubscriber cid acc) st, sd.1)

/-- The `close`/`error` listener installed by
`handlePresenceWebSocketEvents`: its whole body is one
`removePresenceSubscriber` call; no broadcast call is made, so the
broadcast-event log of this operation is empty. -/
def presenceConnectionClosed (cid : String) (st : PresenceState) : PresenceState × List PEvent :=
  (removePresenceSubscriber cid st, [])

/-- The typing-indicator map key `` `${userId}:${chatId}` ``. -/
def mkTypingKey (u c : String) : String := u ++ ":" ++ c

/-- Mark a user's cached presence record as typing in a chat (no-op when
the user has no presence record). -/
def setPresenceTyping (u c : String) (up : List (String × UserPresence)) :
    List (String × UserPresence) :=
  match mapGet u up with
  | some p => mapSet u { p with isTypingFlag := some true, typingInChatId := some c } up
  | none => up

/-- Clear the typing marks on a user's cached presence record (no-op when
the user has no presence record). -/
def clearPresenceTyping (u : String) (up : List (String × UserPresence)) :
    List (String × UserPresence) :=
  match mapGet u up with
  | some p => mapSet u { p with isTypingFlag := some false, typingInChatId := none } up
  | none => up

/-- `handleTypingRequest` of `PresenceDurableObject` (POST `/typing`):
start — store the indicator under `` `${userId}:${chatId}` `` with a fresh
timestamp, mark the presence record, broadcast `typing_start`; stop —
delete the key, clear the presence record, broadcast `typing_stop`.  Both
branches broadcast unconditionally; the prior typing state is never
consulted.  Returns the new state and the events handed to
`broadcastPresenceUpdate`. -/
def handleTypingRequest (now : Nat) (userId chatId : String) (typing : Bool)
    (st : PresenceState) : PresenceState × List PEvent :=
  if typing then
    let ind : TypingIndicator := ⟨userId, chatId, now⟩
    let st1 := { st with
      typingIndicators := mapSet (mkTypingKey userId chatId) ind st.typingIndicators,
      userPresence := setPresenceTyping userId chatId st.userPresence }
    let ev := PEvent.typingStart ind
    ((broadcastPresenceUpdate ev st1).1, [ev])
  else
    let st1 := { st with
      typingIndicators := mapDelete (mkTypingKey userId chatId) st.typingIndicators,
      userPresence := clearPresenceTyping userId st.userPresence }
    let ev := PEvent.typingStop userId chatId now
    ((broadcastPresenceUpdate ev st1).1, [ev])

/-- `handlePresenceRequest` (POST `/presence`): overwrite the user's
presence record with the caller-supplied status, fresh `lastSeenAt`, and
broadcast `presence_update`.  (The durable-storage checkpoint
`ctx.storage.put` is outside the in-memory model.) -/
def handlePresenceRequest (now : Nat) (userId status : String)
    (deviceInfo currentChatId : Option String) (st : PresenceState) :
    PresenceState × List PEvent :=
  let p : UserPresence := { userId := userId, status := status, lastSeenAt := now,
                            deviceInfo := deviceInfo, currentChatId := currentChatId }
  let st1 := { st with userPresence := mapSet userId p st.userPresence }
  let ev := PEvent.presenceUpdate p
  ((broadcastPresenceUpdate ev st1).1, [ev])

/-- Responses of `handleStatusRequest`: a raw JSON body, or the
`JSON.stringify` of a presence record (left structured here). -/
inductive DOResponse where
  | jsonBody (status : Nat) (body : String)
  | presenceBody (status : Nat) (p : UserPresence)
deriving Repr, DecidableEq

/-- The exact body `JSON.stringify({ status: "offline" })`. -/
def offlineBody : String := "\x7b\"status\":\"offline\"\x7d"

/-- `handleStatusRequest` (GET `/status`): look the caller up in
`userPresence`; unknown users get a 200 response with body
`{"status":"offline"}`, known users get their record; the state is
returned unchanged. -/
def handleStatusRequest (userId : String) (st : PresenceState) : DOResponse × PresenceState :=
  match mapGet userId st.userPresence with
  | none => (.jsonBody 200 offlineBody, st)
  | some p => (.presenceBody 200 p, st)

/-- The `presence_state` message sent to one new subscriber. -/
structure PresenceSnapshot where
  users : List UserPresence
  typing : List TypingIndicator
  timestamp : Nat
deriving Repr, DecidableEq

/-- `sendCurrentPresenceState`: dump every `userPresence` value and every
`typingIndicators` value — with no expiry filtering — and unicast the
snapshot when the socket is open (`none` = not delivered). -/
def sendCurrentPresenceState (now : Nat) (ws : WsState) (st : PresenceState) :
    Option PresenceSnapshot :=
  if ws.sendOk then
    some ⟨st.userPresence.map Prod.snd, st.typingIndicators.map Prod.snd, now⟩
  else none

/-- The subscribe path of the presence `handleWebSocketUpgrade`: register
the fresh connection id (note: with no associated user id), start its
heartbeat, and unicast the current snapshot. -/
def presenceSubscribe (now : Nat) (cid : String) (ws : WsState) (st : PresenceState) :
    PresenceState × Option PresenceSnapshot :=
  let st1 := { st with presenceSubscribers := mapSet cid ws st.presenceSubscribers,
                       heartbeatIntervals := mapSet cid 0 st.heartbeatIntervals }
  (st1, sendCurrentPresenceState now ws st1)

/-- `getTypingIndicators`: all stored indicator values for a chat, with no
expiry check. -/
def getTypingIndicators (chatId : String) (st : PresenceState) : List TypingIndicator :=
  (st.typingIndicators.map Prod.snd).filter (fun t => t.chatId == chatId)

/-- Modelled from the spec for the C7 comparison (not from the code): the
typing list the spec says a snapshot should carry — only the currently
non-expired indicators, stale-but-unswept ones excluded.  The code's
expiry test is `now - timestamp > 10000`, so non-expired is
`now - timestamp ≤ 10000`. -/
def specSnapshotTyping (now : Nat) (st : PresenceState) : List TypingIndicator :=
  (st.typingIndicators.map Prod.snd).filter (fun t => decide (now - t.timestamp ≤ 10000))

/-- The staleness test of `cleanupExpiredTypingIndicators`:
`now - indicator.timestamp > 10000`. -/
def typingExpired (now : Nat) (t : TypingIndicator) : Bool :=
  decide (now - t.timestamp > 10000)

/-- The deletion loop of `cleanupExpiredTypingIndicators`: for each
collected key still present, delete the indicator, clear the user's cached
typing marks, and broadcast `typing_stop` with the sweep's timestamp. -/
def cleanupLoop (now : Nat) : List String → PresenceState → PresenceState × List PEvent
  | [], st => (st, [])
  | k :: rest, st =>
    match mapGet k st.typingIndicators with
    | none => cleanupLoop now rest st
    | some ind =>
      let st1 := { st with typingIndicators := mapDelete k st.typingIndicators,
                           userPresence := clearPresenceTyping ind.userId st.userPresence }
      let ev := PEvent.typingStop ind.userId ind.chatId now
      let st2 := (broadcastPresenceUpdate ev st1).1
      let r := cleanupLoop now rest st2
      (r.1, ev :: r.2)

/-- `cleanupExpiredTypingIndicators`: collect the keys of all indicators
older than 10 seconds, then process them in the deletion loop. -/
def cleanupExpiredTypingIndicators (now : Nat) (st : PresenceState) :
    PresenceState × List PEvent :=
  cleanupLoop now ((st.typingIndicators.filter (fun p => typingExpired now p.2)).map Prod.fst) st

/-- The demotion test of the `alarm` sweep:
`lastSeenAt < fiveMinutesAgo && status === "online"` with
`fiveMinutesAgo = now - 300000`.  Stated as `lastSeenAt + 300000 < now`,
which agrees with the source's subtraction form on every input — including
`now < 300000`, where the JS comparison against a negative bound is false
just as the truncated-subtraction comparison is; the equivalence with the
literal subtraction form is proved in `demoteCond_eq_sub_form` below. -/
def demoteCond (now : Nat) (p : UserPresence) : Bool :=
  decide (p.lastSeenAt + 300000 < now) && (p.status == "online")

/-- The effect of one `alarm` demotion step on one presence record. -/
def demoteRecord (now : Nat) (p0 : UserPresence) : UserPresence :=
  if demoteCond now p0 then { p0 with status := "offline" } else p0

/-- One iteration of the presence-staleness loop of `alarm`: a record
passing `demoteCond` is rewritten with status `"offline"` in place and a
`presence_update` carrying the updated record is broadcast; other records
are left alone. -/
def demoteEntry (now : Nat) (q : String × UserPresence) (st : PresenceState) :
    PresenceState × Option PEvent :=
  match demoteCond now q.2 with
  | true =>
    let p' := { q.2 with status := "offline" }
    let st1 := { st with userPresence := mapSet q.1 p' st.userPresence }
    ((broadcastPresenceUpdate (PEvent.presenceUpdate p') st1).1,
     some (PEvent.presenceUpdate p'))
  | false => (st, none)

/-- The presence-staleness loop of `alarm`: iterate the `userPresence`
entries in order, applying `demoteEntry` to each. -/
def demoteLoop (now : Nat) : List (String × UserPresence) → PresenceState →
    PresenceState × List PEvent
  | [], st => (st, [])
  | q :: rest, st =>
    let r1 := demoteEntry now q st
    let r := demoteLoop now rest r1.1
    (r.1, r1.2.toList ++ r.2)

/-- The `alarm` sweep: expire typing indicators first, then demote stale
`online` presences.  Returns the final state and, in order, every event
handed to `broadcastPresenceUpdate` during the sweep. -/
def alarm (now : Nat) (st : PresenceState) : PresenceState × List PEvent :=
  let r1 := cleanupExpiredTypingIndicators now st
  let r2 := demoteLoop now r1.1.userPresence r1.1
  (r2.1, r1.2 ++ r2.2)

/-- Does a broadcast event read as `typing_stop` for this (user, chat)? -/
def isStopFor (u c : String) : PEvent → Bool
  | .typingStop u' c' _ => u' == u && c' == c
  | _ => false

/-- Number of `typing_stop` broadcasts for a (user, chat) pair in an event
log. -/
def stopsFor (u c : String) (evs : List PEvent) : Nat :=
  (evs.filter (isStopFor u c)).length

/-- Does a broadcast event read as `presence_update` for this user? -/
def isUpdateFor (u : String) : PEvent → Bool
  | .presenceUpdate p => p.userId == u
  | _ => false

/-- Number of `presence_update` broadcasts for a user in an event log. -/
def updatesFor (u : String) (evs : List PEvent) : Nat :=
  (evs.filter (isUpdateFor u)).length

/-! ### Concrete instances used by witnesses and counterexamples -/

/-- Empty room coordinator state. -/
def roomStEmpty : ChatRoomState :=
  { connections := [], userConnections := [], typingUsers := [], heartbeatIntervals := [] }

/-- Empty presence coordinator state. -/
def presenceStEmpty : PresenceState :=
  { userPresence := [], typingIndicators := [], presenceSubscribers := [],
    heartbeatIntervals := [] }

/-- A registry with one delivering, one closed and one throwing subscriber. -/
def presenceStC1 : PresenceState :=
  { userPresence := [], typingIndicators := [],
    presenceSubscribers := [("sub1", .openOk), ("sub2", .closedWs), ("sub3", .openThrow)],
    heartbeatIntervals := [("sub1", 0), ("sub2", 0), ("sub3", 0)] }

/-- An online user whose only subscriber connection is about to close. -/
def presenceRecC3 : UserPresence := { userId := "u1", status := "online", lastSeenAt := 50 }

def presenceStC3 : PresenceState :=
  { userPresence := [("u1", presenceRecC3)], typingIndicators := [],
    presenceSubscribers := [("c1", .openOk)], heartbeatIntervals := [("c1", 0)] }

/-- Two users, one connection each, all transports healthy. -/
def roomStC4 : ChatRoomState :=
  { connections := [("c1", .openOk), ("c2", .openOk)],
    userConnections := [("u1", ["c1"]), ("u2", ["c2"])],
    typingUsers := [],
    heartbeatIntervals := [("c1", 0), ("c2", 0)] }

/-- One typing indicator recorded at time 0 and never stopped. -/
def presenceStC5 : PresenceState :=
  { userPresence := [], typingIndicators := [("u1:c1", ⟨"u1", "c1", 0⟩)],
    presenceSubscribers := [], heartbeatIntervals := [] }

/-- An `away` user, fresh activity, with an expired typing indicator. -/
def presenceRecC6 : UserPresence :=
  { userId := "u1", status := "away", lastSeenAt := 19000, isTypingFlag := some true,
    typingInChatId := some "c1" }

def presenceStC6 : PresenceState :=
  { userPresence := [("u1", presenceRecC6)],
    typingIndicators := [("u1:c1", ⟨"u1", "c1", 0⟩)],
    presenceSubscribers := [], heartbeatIntervals := [] }

/-- An `online` user with stale activity and no typing indicator. -/
def presenceRecC6w : UserPresence := { userId := "u2", status := "online", lastSeenAt := 0 }

def presenceStC6w : PresenceState :=
  { userPresence := [("u2", presenceRecC6w)], typingIndicators := [],
    presenceSubscribers := [], heartbeatIntervals := [] }

/-- A presence map with one record and one stale unswept typing indicator. -/
def presenceRecC7 : UserPresence := { userId := "u1", status := "online", lastSeenAt := 15000 }

def presenceStC7 : PresenceState :=
  { userPresence := [("u1", presenceRecC7)],
    typingIndicators := [("u2:c1", ⟨"u2", "c1", 0⟩)],
    presenceSubscribers := [], heartbeatIntervals := [] }

/-- Two subscribed users in room `c1`, both transports healthy. -/
def roomStC8 : ChatRoomState :=
  { connections := [("ca", .openOk), ("cb", .openOk)],
    userConnections := [("ua", ["ca"]), ("ub", ["cb"])],
    typingUsers := [],
    heartbeatIntervals := [("ca", 0), ("cb", 0)] }

/-- A presence instance where nobody is typing. -/
def presenceStC9 : PresenceState :=
  { userPresence := [], typingIndicators := [],
    presenceSubscribers := [("s1", .openOk)], heartbeatIntervals := [("s1", 0)] }

/-- An op sequence for the C2 witness: two devices of u1 plus one of u2
register, then a dead connection and a healthy one unregister. -/
def roomOpsC2 : List RoomOp :=
  [.register "c1" "u1" .openOk, .register "c2" "u1" .closedWs,
   .register "c3" "u2" .openOk, .unregister "c2", .unregister "c3"]

/-- A room registry with one open connection and two dead single-connection
users, so a broadcast's prune pass cascades a nested offline broadcast. -/
def roomStC1 : ChatRoomState :=
  { connections := [("c1", .openOk), ("c2", .closedWs), ("c3", .openThrow)],
    userConnections := [("u1", ["c1"]), ("u2", ["c2"]), ("u3", ["c3"])],
    typingUsers := [],
    heartbeatIntervals := [("c1", 0), ("c2", 0), ("c3", 0)] }

/-- Three users with one connection each, one of them dead, and a non-empty
typing set: closing u1's only connection broadcasts offline and the
broadcast's prune pass removes the dead remaining connection. -/
def roomStC4d : ChatRoomState :=
  { connections := [("c1", .openOk), ("c2", .closedWs), ("c3", .openOk)],
    userConnections := [("u1", ["c1"]), ("u2", ["c2"]), ("u3", ["c3"])],
    typingUsers := ["u9"],
    heartbeatIntervals := [("c1", 0), ("c2", 0), ("c3", 0)] }

end NearbyConnect

namespace NearbyConnect

theorem mapGet_eq_none_iff {α : Type} (k : String) (l : List (String × α)) :
    mapGet k l = none ↔ k ∉ mapKeys l := by
  induction l with
  | nil => simp [mapGet, mapKeys]
  | cons p rest ih =>
    obtain ⟨k', v⟩ := p
    by_cases h : k' = k
    · subst h
      simp [mapGet, mapKeys]
    · simp [mapGet, mapKeys, h, Ne.symm h] at ih ⊢
      exact ih

theorem mapGet_isSome_iff_mem {α : Type} (k : String) (l : List (String × α)) :
    (mapGet k l).isSome ↔ k ∈ mapKeys l := by
  induction l with
  | nil => simp [mapGet, mapKeys]
  | cons p rest ih =>
    obtain ⟨k', v⟩ := p
    by_cases h : k' = k
    · subst h
      simp [mapGet, mapKeys]
    · simp [mapGet, mapKeys, h, Ne.symm h, ih]

theorem mem_of_mapGet {α : Type} {k : String} {l : List (String × α)} {v : α}
    (h : mapGet k l = some v) : (k, v) ∈ l := by
  induction l with
  | nil => simp [mapGet] at h
  | cons p rest ih =>
    obtain ⟨k', v'⟩ := p
    by_cases hk : k' = k
    · subst hk
      simp [mapGet] at h
      subst h
      exact List.mem_cons_self _ _
    · simp [mapGet, hk] at h
      exact List.mem_cons_of_mem _ (ih h)

theorem mapGet_of_mem_nodup {α : Type} {k : String} {l : List (String × α)} {v : α}
    (hN : (mapKeys l).Nodup) (h : (k, v) ∈ l) : mapGet k l = some v := by
  induction l with
  | nil => simp at h
  | cons p rest ih =>
    obtain ⟨k', v'⟩ := p
    simp only [mapKeys, List.map_cons, List.nodup_cons] at hN
    rcases List.mem_cons.mp h with h1 | h2
    · cases h1
      simp [mapGet]
    · have hk : k' ≠ k := by
        intro hEq
        subst hEq
        exact hN.1 (by simpa [mapKeys] using List.mem_map_of_mem Prod.fst h2)
      simp only [mapGet, hk, if_false]
      exact ih hN.2 h2

theorem mapGet_mapSet_self {α : Type} (k : String) (v : α) (l : List (String × α)) :
    mapGet k (mapSet k v l) = some v := by
  induction l with
  | nil => simp [mapGet, mapSet]
  | cons p rest ih =>
    obtain ⟨k', v'⟩ := p
    by_cases h : k' = k
    · simp [mapSet, mapGet, h]
    · simp [mapSet, mapGet, h, ih]

theorem mapGet_mapSet_ne {α : Type} {k k' : String} (v : α) (l : List (String × α))
    (h : k ≠ k') : mapGet k' (mapSet k v l) = mapGet k' l := by
  induction l with
  | nil => simp [mapGet, mapSet, h]
  | cons p rest ih =>
    obtain ⟨k₀, v₀⟩ := p
    by_cases h0 : k₀ = k
    · subst h0
      simp [mapSet, mapGet, h]
    · simp [mapSet, mapGet, h0, ih]

theorem mapSet_absent {α : Type} {k : String} (v : α) {l : List (String × α)}
    (h : mapGet k l = none) : mapSet k v l = l ++ [(k, v)] := by
  induction l with
  | nil => simp [mapSet]
  | cons p rest ih =>
    obtain ⟨k', v'⟩ := p
    by_cases hk : k' = k
    · subst hk
      simp [mapGet] at h
    · simp [mapGet, hk] at h
      simp [mapSet, hk, ih h]

theorem mapKeys_mapSet_present {α : Type} {k : String} (v : α) {l : List (String × α)}
    (h : k ∈ mapKeys l) : mapKeys (mapSet k v l) = mapKeys l := by
  induction l with
  | nil => simp [mapKeys] at h
  | cons p rest ih =>
    obtain ⟨k', v'⟩ := p
    by_cases hk : k' = k
    · subst hk
      simp [mapSet, mapKeys]
    · simp only [mapKeys, List.map_cons, List.mem_cons] at h
      rcases h with h1 | h2
      · exact absurd h1.symm hk
      · have hrec := ih (by simpa [mapKeys] using h2)
        simp only [mapKeys] at hrec
        simp [mapSet, hk, mapKeys, hrec]

theorem mapDelete_sublist {α : Type} (k : String) (l : List (String × α)) :
    List.Sublist (mapDelete k l) l := by
  induction l with
  | nil => simp [mapDelete]
  | cons p rest ih =>
    obtain ⟨k', v'⟩ := p
    by_cases h : k' = k
    · simp [mapDelete, h]
    · simpa [mapDelete, h] using List.Sublist.cons₂ (k', v') ih

theorem mapDelete_absent {α : Type} {k : String} {l : List (String × α)}
    (h : k ∉ mapKeys l) : mapDelete k l = l := by
  induction l with
  | nil => simp [mapDelete]
  | cons p rest ih =>
    obtain ⟨k', v'⟩ := p
    simp only [mapKeys, List.map_cons, List.mem_cons, not_or] at h
    have hk : k' ≠ k := fun hEq => h.1 hEq.symm
    simp [mapDelete, hk, ih (by simpa [mapKeys] using h.2)]

theorem mapDelete_eq_filter {α : Type} {k : String} {l : List (String × α)}
    (hN : (mapKeys l).Nodup) :
    mapDelete k l = l.filter (fun p => decide (p.1 ≠ k)) := by
  induction l with
  | nil => simp [mapDelete]
  | cons p rest ih =>
    obtain ⟨k', v'⟩ := p
    simp only [mapKeys, List.map_cons, List.nodup_cons] at hN
    by_cases h : k' = k
    · subst h
      rw [List.filter_cons_of_neg (by simp)]
      have hrest : ∀ p ∈ rest, p.1 ≠ k' := by
        intro p hp hEq
        exact hN.1 (by simpa [mapKeys, hEq] using List.mem_map_of_mem Prod.fst hp)
      rw [List.filter_eq_self.mpr (by
        intro p hp
        simpa using hrest p hp)]
      simp [mapDelete]
    · rw [List.filter_cons_of_pos (by simp [h])]
      simp [mapDelete, h, ih hN.2]

theorem mapGet_mapDelete_ne {α : Type} {k k' : String} (l : List (String × α))
    (h : k ≠ k') : mapGet k' (mapDelete k l) = mapGet k' l := by
  induction l with
  | nil => simp [mapDelete]
  | cons p rest ih =>
    obtain ⟨k₀, v₀⟩ := p
    by_cases h0 : k₀ = k
    · subst h0
      simp [mapDelete, mapGet, h]
    · simp [mapDelete, mapGet, h0, ih]

theorem mapGet_mapDelete_self {α : Type} {k : String} {l : List (String × α)}
    (hN : (mapKeys l).Nodup) : mapGet k (mapDelete k l) = none := by
  rw [mapGet_eq_none_iff, mapDelete_eq_filter hN]
  intro hMem
  simp only [mapKeys, List.mem_map] at hMem
  obtain ⟨p, hp, hEq⟩ := hMem
  have := List.of_mem_filter hp
  simp at this
  exact this hEq

theorem mapKeys_mapDelete_sublist {α : Type} (k : String) (l : List (String × α)) :
    List.Sublist (mapKeys (mapDelete k l)) (mapKeys l) :=
  List.Sublist.map Prod.fst (mapDelete_sublist k l)

theorem nodup_mapKeys_mapDelete {α : Type} (k : String) {l : List (String × α)}
    (hN : (mapKeys l).Nodup) : (mapKeys (mapDelete k l)).Nodup :=
  hN.sublist (mapKeys_mapDelete_sublist k l)

theorem mapDeleteAll_eq_filter {α : Type} (ks : List String) {l : List (String × α)}
    (hN : (mapKeys l).Nodup) :
    mapDeleteAll ks l = l.filter (fun p => decide (p.1 ∉ ks)) := by
  induction ks generalizing l with
  | nil => simp [mapDeleteAll]
  | cons k rest ih =>
    have h1 : mapDeleteAll (k :: rest) l = mapDeleteAll rest (mapDelete k l) := rfl
    rw [h1, ih (nodup_mapKeys_mapDelete k hN), mapDelete_eq_filter hN, List.filter_filter]
    apply List.filter_congr
    intro p _
    by_cases h : p.1 = k <;> by_cases h2 : p.1 ∈ rest <;> simp [h, h2]

theorem mapGet_map_value {α β : Type} (k : String) (h : α → β) (l : List (String × α)) :
    mapGet k (l.map (fun q => (q.1, h q.2))) = (mapGet k l).map h := by
  induction l with
  | nil => simp [mapGet]
  | cons p rest ih =>
    obtain ⟨k', v⟩ := p
    by_cases hk : k' = k
    · simp [mapGet, hk]
    · simp [mapGet, hk, ih]

theorem filter_eq_singleton_of_unique {α : Type} [DecidableEq α] {l : List α}
    {p : α → Bool} {e : α} (hN : l.Nodup) (hMem : e ∈ l) (hp : p e = true)
    (hUniq : ∀ x ∈ l, p x = true → x = e) : l.filter p = [e] := by
  induction l with
  | nil => simp at hMem
  | cons a rest ih =>
    simp only [List.nodup_cons] at hN
    rcases List.mem_cons.mp hMem with h1 | h2
    · subst h1
      have hall : ∀ x ∈ rest, p x = false := by
        intro x hx
        rcases Bool.eq_false_or_eq_true (p x) with ht | hf
        · exact absurd (hUniq x (List.mem_cons_of_mem _ hx) ht) (by
            intro hEq
            exact hN.1 (hEq ▸ hx))
        · exact hf
      rw [List.filter_cons_of_pos hp, List.filter_eq_nil_iff.mpr (by
        intro x hx
        simp [hall x hx])]
    · have ha : p a = false := by
        rcases Bool.eq_false_or_eq_true (p a) with ht | hf
        · exact absurd (hUniq a (List.mem_cons_self _ _) ht) (by
            intro hEq
            exact hN.1 (hEq ▸ h2))
        · exact hf
      rw [List.filter_cons_of_neg (by simp [ha])]
      exact ih hN.2 h2 (fun x hx hpx => hUniq x (List.mem_cons_of_mem _ hx) hpx)

theorem mapGet_append {α : Type} (k : String) (l1 l2 : List (String × α)) :
    mapGet k (l1 ++ l2) = match mapGet k l1 with
      | some v => some v
      | none => mapGet k l2 := by
  induction l1 with
  | nil => simp [mapGet]
  | cons p rest ih =>
    obtain ⟨k', v'⟩ := p
    by_cases h : k' = k <;> simp [mapGet, h, ih]

theorem mapGet_decomp {α : Type} {k : String} {l : List (String × α)} {v : α}
    (h : mapGet k l = some v) :
    ∃ l1 l2, l = l1 ++ (k, v) :: l2 ∧ k ∉ mapKeys l1 := by
  induction l with
  | nil => simp [mapGet] at h
  | cons p rest ih =>
    obtain ⟨k', v'⟩ := p
    by_cases hk : k' = k
    · subst hk
      simp [mapGet] at h
      subst h
      exact ⟨[], rest, rfl, by simp [mapKeys]⟩
    · simp only [mapGet, if_neg hk] at h
      obtain ⟨l1, l2, hEq, hNk⟩ := ih h
      refine ⟨(k', v') :: l1, l2, by simp [hEq], ?_⟩
      simp only [mapKeys, List.map_cons, List.mem_cons, not_or]
      exact ⟨fun hEq2 => hk hEq2.symm, by simpa [mapKeys] using hNk⟩

theorem mapSet_decomp {α : Type} {k : String} (w : α) {l1 l2 : List (String × α)} (v : α)
    (h : k ∉ mapKeys l1) : mapSet k w (l1 ++ (k, v) :: l2) = l1 ++ (k, w) :: l2 := by
  induction l1 with
  | nil => simp [mapSet]
  | cons p rest ih =>
    obtain ⟨k', v'⟩ := p
    simp only [mapKeys, List.map_cons, List.mem_cons, not_or] at h
    have hk : k' ≠ k := fun hEq => h.1 hEq.symm
    simp [mapSet, hk]
    exact ih (by simpa [mapKeys] using h.2)

theorem mapDelete_decomp {α : Type} {k : String} {l1 l2 : List (String × α)} (v : α)
    (h : k ∉ mapKeys l1) : mapDelete k (l1 ++ (k, v) :: l2) = l1 ++ l2 := by
  induction l1 with
  | nil => simp [mapDelete]
  | cons p rest ih =>
    obtain ⟨k', v'⟩ := p
    simp only [mapKeys, List.map_cons, List.mem_cons, not_or] at h
    have hk : k' ≠ k := fun hEq => h.1 hEq.symm
    simp [mapDelete, hk]
    exact ih (by simpa [mapKeys] using h.2)

theorem mem_mapSet {α : Type} {k : String} {v : α} {l : List (String × α)} {q : String × α}
    (h : q ∈ mapSet k v l) : q = (k, v) ∨ q ∈ l := by
  induction l with
  | nil => simpa [mapSet] using h
  | cons p rest ih =>
    obtain ⟨k', v'⟩ := p
    by_cases hk : k' = k
    · have h' : q ∈ (k, v) :: rest := by simpa [mapSet, hk] using h
      rcases List.mem_cons.mp h' with h1 | h2
      · exact Or.inl h1
      · exact Or.inr (List.mem_cons_of_mem _ h2)
    · have h' : q ∈ (k', v') :: mapSet k v rest := by simpa [mapSet, hk] using h
      rcases List.mem_cons.mp h' with h1 | h2
      · exact Or.inr (h1 ▸ List.mem_cons_self _ _)
      · rcases ih h2 with h3 | h4
        · exact Or.inl h3
        · exact Or.inr (List.mem_cons_of_mem _ h4)

theorem mem_mapSet_self {α : Type} (k : String) (v : α) (l : List (String × α)) :
    (k, v) ∈ mapSet k v l := by
  induction l with
  | nil => simp [mapSet]
  | cons p rest ih =>
    obtain ⟨k', v'⟩ := p
    by_cases hk : k' = k <;> simp [mapSet, hk, ih]

theorem mapSet_append_skip {α : Type} {k : String} (w : α) {l1 : List (String × α)}
    (l2 : List (String × α)) (h : k ∉ mapKeys l1) :
    mapSet k w (l1 ++ l2) = l1 ++ mapSet k w l2 := by
  induction l1 with
  | nil => simp
  | cons p rest ih =>
    obtain ⟨k', v'⟩ := p
    simp only [mapKeys, List.map_cons, List.mem_cons, not_or] at h
    have hk : k' ≠ k := fun hEq => h.1 hEq.symm
    simp [mapSet, hk]
    exact ih (by simpa [mapKeys] using h.2)

theorem entry_eq_of_nodup {α : Type} {l : List (String × α)} (hN : (mapKeys l).Nodup)
    {p q : String × α} (hp : p ∈ l) (hq : q ∈ l) (h : p.1 = q.1) : p = q := by
  have h1 : mapGet p.1 l = some p.2 := mapGet_of_mem_nodup hN (by simpa using hp)
  have h2 : mapGet q.1 l = some q.2 := mapGet_of_mem_nodup hN (by simpa using hq)
  rw [h] at h1
  exact Prod.ext h (Option.some.inj (h1.symm.trans h2))

theorem ownersL_append (cid : String) (l1 l2 : List (String × List String)) :
    ownersL cid (l1 ++ l2) = ownersL cid l1 + ownersL cid l2 := by
  simp [ownersL, List.filter_append]

theorem ownersL_cons (cid : String) (p : String × List String)
    (l : List (String × List String)) :
    ownersL cid (p :: l) = (if cid ∈ p.2 then 1 else 0) + ownersL cid l := by
  by_cases h : cid ∈ p.2 <;> simp [ownersL, List.filter_cons, h, Nat.add_comm]

theorem ownersL_eq_zero {cid : String} {l : List (String × List String)}
    (h : ∀ q ∈ l, cid ∉ q.2) : ownersL cid l = 0 := by
  simp only [ownersL, List.length_eq_zero]
  exact List.filter_eq_nil_iff.mpr (by
    intro q hq
    simp [h q hq])

/-! ### Broadcast-engine lemmas -/

theorem broadcastScan_fst {ε : Type} (ev : ε) (l : List (String × WsState)) :
    (broadcastScan ev l).1 = (l.filter (fun p => p.2.sendOk)).map (fun p => (p.1, ev)) := by
  induction l with
  | nil => rfl
  | cons p rest ih =>
    obtain ⟨cid, ws⟩ := p
    by_cases h : ws.sendOk = true <;>
      simp [broadcastScan, h, ih, List.filter_cons]

theorem broadcastScan_snd {ε : Type} (ev : ε) (l : List (String × WsState)) :
    (broadcastScan ev l).2 = (l.filter (fun p => !p.2.sendOk)).map Prod.fst := by
  induction l with
  | nil => rfl
  | cons p rest ih =>
    obtain ⟨cid, ws⟩ := p
    by_cases h : ws.sendOk = true <;>
      simp [broadcastScan, h, ih, List.filter_cons]

theorem foldRemoveSub_subscribers (ds : List String) (st : PresenceState) :
    (ds.foldl (fun acc cid => removePresenceSubscriber cid acc) st).presenceSubscribers
      = mapDeleteAll ds st.presenceSubscribers := by
  induction ds generalizing st with
  | nil => rfl
  | cons d rest ih => exact ih (removePresenceSubscriber d st)

theorem foldRemoveSub_userPresence (ds : List String) (st : PresenceState) :
    (ds.foldl (fun acc cid => removePresenceSubscriber cid acc) st).userPresence
      = st.userPresence := by
  induction ds generalizing st with
  | nil => rfl
  | cons d rest ih => exact ih (removePresenceSubscriber d st)

theorem foldRemoveSub_typing (ds : List String) (st : PresenceState) :
    (ds.foldl (fun acc cid => removePresenceSubscriber cid acc) st).typingIndicators
      = st.typingIndicators := by
  induction ds generalizing st with
  | nil => rfl
  | cons d rest ih => exact ih (removePresenceSubscriber d st)

theorem broadcastPresenceUpdate_userPresence (ev : PEvent) (st : PresenceState) :
    (broadcastPresenceUpdate ev st).1.userPresence = st.userPresence :=
  foldRemoveSub_userPresence _ st

theorem broadcastPresenceUpdate_typing (ev : PEvent) (st : PresenceState) :
    (broadcastPresenceUpdate ev st).1.typingIndicators = st.typingIndicators :=
  foldRemoveSub_typing _ st

theorem deadKeys_filter_sendOk {l : List (String × WsState)} (hN : (mapKeys l).Nodup) :
    (l.filter (fun p => decide (p.1 ∉ (l.filter (fun q => !q.2.sendOk)).map Prod.fst)))
      = l.filter (fun p => p.2.sendOk) := by
  apply List.filter_congr
  intro p hp
  rcases Bool.eq_false_or_eq_true p.2.sendOk with hT | hF
  · simp only [hT, decide_eq_true_eq]
    intro hMem
    obtain ⟨q, hq, hq1⟩ := List.mem_map.mp hMem
    have hql := List.mem_filter.mp hq
    have hqp : q = p := entry_eq_of_nodup hN hql.1 hp hq1
    rw [hqp] at hql
    simp [hT] at hql
  · simp only [hF, decide_eq_false_iff_not, Decidable.not_not]
    exact List.mem_map_of_mem Prod.fst (List.mem_filter.mpr ⟨hp, by simp [hF]⟩)

/-! ### removeUserConn lemmas -/

theorem removeUserConn_none {cid : String} {uc : List (String × List String)}
    (h : ∀ q ∈ uc, cid ∉ q.2) : removeUserConn cid uc = (uc, none) := by
  induction uc with
  | nil => rfl
  | cons q rest ih =>
    obtain ⟨u', s'⟩ := q
    have hq : cid ∉ s' := h (u', s') (List.mem_cons_self _ _)
    simp [removeUserConn, hq, ih (fun q hq2 => h q (List.mem_cons_of_mem _ hq2))]

theorem removeUserConn_decomp (cid u0 : String) (s0 : List String)
    (uc1 uc2 : List (String × List String))
    (h1 : ∀ q ∈ uc1, cid ∉ q.2) (h0 : cid ∈ s0) :
    removeUserConn cid (uc1 ++ (u0, s0) :: uc2)
      = if (s0.erase cid).isEmpty then (uc1 ++ uc2, some u0)
        else (uc1 ++ (u0, s0.erase cid) :: uc2, none) := by
  induction uc1 with
  | nil =>
    by_cases he : (s0.erase cid).isEmpty = true <;>
      simp [removeUserConn, h0, he]
  | cons q rest ih =>
    obtain ⟨u', s'⟩ := q
    have hq : cid ∉ s' := h1 (u', s') (List.mem_cons_self _ _)
    have ih2 := ih (fun q hq2 => h1 q (List.mem_cons_of_mem _ hq2))
    by_cases he : (s0.erase cid).isEmpty = true <;>
      simp only [he, if_true, if_false] at ih2 ⊢ <;>
      simp [removeUserConn, hq, ih2]

/-! ### Claim theorems: snapshot, status, typing no-op, subscriber close
(the broadcast claim C1 is stated after the room broadcast lemmas below) -/

/-- Counterexample to claim C3: on the PresenceCoordinator, removing a
user's last (indeed only) subscriber connection leaves their presence
record `online` and emits no broadcast at all — the claimed immediate
offline transition does not exist there. -/
theorem claim_C3_counterexample :
    (presenceConnectionClosed "c1" presenceStC3).1.presenceSubscribers = []
    ∧ mapGet "u1" (presenceConnectionClosed "c1" presenceStC3).1.userPresence
        = some presenceRecC3
    ∧ presenceRecC3.status = "online"
    ∧ (presenceConnectionClosed "c1" presenceStC3).2 = [] :=
  ⟨rfl, rfl, rfl, rfl⟩

/-- Claim C3 as amended: on the PresenceCoordinator, unregistering a
subscriber connection (even a user's last one) performs only
subscriber-registry and heartbeat bookkeeping; no presence record changes,
no typing indicator changes, and no broadcast is emitted.  (Subscriber
connections carry no user id at all; the immediate offline broadcast on
last-disconnect exists only on the RoomCoordinator.) -/
theorem claim_C3_amended_close_is_bookkeeping_only (cid : String) (st : PresenceState) :
    (presenceConnectionClosed cid st).1.userPresence = st.userPresence
    ∧ (presenceConnectionClosed cid st).1.typingIndicators = st.typingIndicators
    ∧ (presenceConnectionClosed cid st).1.presenceSubscribers
        = mapDelete cid st.presenceSubscribers
    ∧ (presenceConnectionClosed cid st).1.heartbeatIntervals
        = mapDelete cid st.heartbeatIntervals
    ∧ (presenceConnectionClosed cid st).2 = [] :=
  ⟨rfl, rfl, rfl, rfl, rfl⟩

/-- Counterexample to claim C7: the snapshot a new subscriber receives
lists every stored typing indicator, including one that is 20 seconds old
(stale but not yet swept), whereas the claim says stale indicators are
excluded: the spec-side non-expired list is empty. -/
theorem claim_C7_counterexample :
    (presenceSubscribe 20000 "c9" WsState.openOk presenceStC7).2
      = some ⟨[presenceRecC7], [⟨"u2", "c1", 0⟩], 20000⟩
    ∧ specSnapshotTyping 20000 presenceStC7 = []
    ∧ ([(⟨"u2", "c1", 0⟩ : TypingIndicator)] : List TypingIndicator) ≠ [] :=
  ⟨rfl, rfl, by decide⟩

/-- Claim C7 as amended: every newly subscribed presence connection whose
send succeeds receives, at the moment of subscribing and as a unicast, a
snapshot whose user list is all users holding a presence record and whose
typing list is all stored typing indicators — including indicators that
are stale but not yet swept (no expiry filter is applied). -/
theorem claim_C7_amended_snapshot_lists_everything (now : Nat) (cid : String) (ws : WsState)
    (st : PresenceState) (h : ws.sendOk = true) :
    (presenceSubscribe now cid ws st).2
      = some ⟨st.userPresence.map Prod.snd, st.typingIndicators.map Prod.snd, now⟩
    ∧ mapGet cid (presenceSubscribe now cid ws st).1.presenceSubscribers = some ws := by
  constructor
  · show sendCurrentPresenceState now ws _ = _
    simp [sendCurrentPresenceState, h]
  · exact mapGet_mapSet_self cid ws st.presenceSubscribers

/-- Witness for the amended C7. -/
theorem claim_C7_witness :
    WsState.sendOk .openOk = true
    ∧ (presenceSubscribe 20000 "c9" WsState.openOk presenceStC7).2
        = some ⟨presenceStC7.userPresence.map Prod.snd,
                presenceStC7.typingIndicators.map Prod.snd, 20000⟩
    ∧ mapGet "c9" (presenceSubscribe 20000 "c9" WsState.openOk
        presenceStC7).1.presenceSubscribers = some .openOk := by
  refine ⟨rfl, ?_, ?_⟩
  · exact (claim_C7_amended_snapshot_lists_everything 20000 "c9" .openOk presenceStC7 rfl).1
  · exact (claim_C7_amended_snapshot_lists_everything 20000 "c9" .openOk presenceStC7 rfl).2

/-- Counterexample to claim C9: a `setTyping(isTyping=false)` for a user
who is already idle (no typing indicator stored anywhere) still hands a
`typing_stop` event to the broadcast engine — the no-op IS broadcast. -/
theorem claim_C9_counterexample :
    presenceStC9.typingIndicators = []
    ∧ (handleTypingRequest 5 "u1" "c1" false presenceStC9).2
        = [PEvent.typingStop "u1" "c1" 5]
    ∧ (handleTypingRequest 5 "u1" "c1" false presenceStC9).1.typingIndicators = [] := by
  refine ⟨rfl, rfl, ?_⟩
  rw [show (handleTypingRequest 5 "u1" "c1" false presenceStC9).1.typingIndicators
      = mapDelete (mkTypingKey "u1" "c1") presenceStC9.typingIndicators from
      broadcastPresenceUpdate_typing _ _]
  rfl

/-- Claim C9 as amended: `setTyping` broadcasts the signalled state
unconditionally, no-op or not: a stop signal always emits exactly one
`typing_stop` (leaving the indicator map unchanged when the user was
already idle, though a present cached presence record still gets its
typing flags cleared), and a start signal always emits exactly one
`typing_start` while (idempotently) storing the indicator with the fresh
timestamp. -/
theorem claim_C9_amended_setTyping_always_broadcasts (now : Nat) (u c : String) (b : Bool)
    (st : PresenceState) :
    (handleTypingRequest now u c b st).2
      = [if b then PEvent.typingStart ⟨u, c, now⟩ else PEvent.typingStop u c now]
    ∧ (b = false → mapGet (mkTypingKey u c) st.typingIndicators = none →
        (handleTypingRequest now u c false st).1.typingIndicators = st.typingIndicators)
    ∧ (b = true →
        mapGet (mkTypingKey u c) (handleTypingRequest now u c true st).1.typingIndicators
          = some ⟨u, c, now⟩) := by
  refine ⟨by cases b <;> rfl, ?_, ?_⟩
  · intro _ habs
    rw [show (handleTypingRequest now u c false st).1.typingIndicators
        = mapDelete (mkTypingKey u c) st.typingIndicators from
        broadcastPresenceUpdate_typing _ _]
    exact mapDelete_absent ((mapGet_eq_none_iff _ _).mp habs)
  · intro _
    rw [show (handleTypingRequest now u c true st).1.typingIndicators
        = mapSet (mkTypingKey u c) ⟨u, c, now⟩ st.typingIndicators from
        broadcastPresenceUpdate_typing _ _]
    exact mapGet_mapSet_self _ _ _

/-- Witness for the amended C9 (stop signal on an idle user). -/
theorem claim_C9_witness :
    mapGet (mkTypingKey "u2" "c2") presenceStEmpty.typingIndicators = none
    ∧ (handleTypingRequest 7 "u2" "c2" false presenceStEmpty).1.typingIndicators
        = presenceStEmpty.typingIndicators :=
  ⟨rfl, (claim_C9_amended_setTyping_always_broadcasts 7 "u2" "c2" false
    presenceStEmpty).2.1 rfl rfl⟩

/-- Claim C10: asking the presence coordinator for the status of a user it
has never recorded raises no error and mutates nothing: the handler
returns a 200 response whose body is exactly `{"status":"offline"}` and
hands the state back unchanged. -/
theorem claim_C10_unknown_user_reports_offline (userId : String) (st : PresenceState)
    (h : mapGet userId st.userPresence = none) :
    handleStatusRequest userId st = (DOResponse.jsonBody 200 offlineBody, st) := by
  simp [handleStatusRequest, h]

/-- Witness for C10. -/
theorem claim_C10_witness :
    mapGet "ghost" presenceStEmpty.userPresence = none
    ∧ handleStatusRequest "ghost" presenceStEmpty
        = (DOResponse.jsonBody 200 offlineBody, presenceStEmpty) :=
  ⟨rfl, claim_C10_unknown_user_reports_offline "ghost" presenceStEmpty rfl⟩

/-- Counterexample to claim C4: on the RoomCoordinator, unregistering user
u1's last connection broadcasts a presence/offline event to the remaining
connection — removal is not bookkeeping-only. -/
theorem claim_C4_counterexample :
    (removeConnection 3 7 "c1" roomStC4).2 = [("c2", offlineEvent "u1" 7)]
    ∧ offlineEvent "u1" 7
        = { etype := "presence", userId := "u1", status := "offline", timestamp := 7 } := by
  exact ⟨by decide, rfl⟩

theorem mapGet_filter_of_mem {α : Type} {l : List (String × α)} (hN : (mapKeys l).Nodup)
    {k : String} {v : α} (hmem : (k, v) ∈ l) (pred : String × α → Bool)
    (hp : pred (k, v) = true) : mapGet k (l.filter pred) = some v := by
  apply mapGet_of_mem_nodup
  · exact hN.sublist (List.Sublist.map Prod.fst (List.filter_sublist l))
  · exact List.mem_filter.mpr ⟨hmem, hp⟩

theorem filterMap_all_some {α β : Type} {f : α → Option β} {g : α → β} :
    ∀ {l : List α}, (∀ x ∈ l, f x = some (g x)) → l.filterMap f = l.map g := by
  intro l
  induction l with
  | nil => intro _; rfl
  | cons a rest ih =>
    intro h
    rw [List.filterMap_cons_some (h a (List.mem_cons_self _ _)), List.map_cons,
        ih (fun x hx => h x (List.mem_cons_of_mem _ hx))]

theorem cleanupLoop_typing (now : Nat) :
    ∀ (ks : List String) (st : PresenceState),
      (cleanupLoop now ks st).1.typingIndicators = mapDeleteAll ks st.typingIndicators := by
  intro ks
  induction ks with
  | nil => intro st; rfl
  | cons k rest ih =>
    intro st
    cases hget : mapGet k st.typingIndicators with
    | none =>
      have habs : mapDelete k st.typingIndicators = st.typingIndicators :=
        mapDelete_absent ((mapGet_eq_none_iff _ _).mp hget)
      show (cleanupLoop now (k :: rest) st).1.typingIndicators
        = mapDeleteAll rest (mapDelete k st.typingIndicators)
      rw [habs]
      simp only [cleanupLoop, hget]
      exact ih st
    | some ind =>
      show (cleanupLoop now (k :: rest) st).1.typingIndicators
        = mapDeleteAll rest (mapDelete k st.typingIndicators)
      simp only [cleanupLoop, hget]
      rw [ih _]
      congr 1
      exact broadcastPresenceUpdate_typing _ _

theorem cleanupLoop_events (now : Nat) :
    ∀ (ks : List String), ks.Nodup → ∀ (st : PresenceState),
      (cleanupLoop now ks st).2
        = ks.filterMap (fun k => (mapGet k st.typingIndicators).map
            (fun ind => PEvent.typingStop ind.userId ind.chatId now)) := by
  intro ks
  induction ks with
  | nil => intro _ st; rfl
  | cons k rest ih =>
    intro hN st
    simp only [List.nodup_cons] at hN
    cases hget : mapGet k st.typingIndicators with
    | none =>
      simp only [cleanupLoop, hget, List.filterMap_cons, Option.map_none']
      exact ih hN.2 st
    | some ind =>
      simp only [cleanupLoop, hget, List.filterMap_cons, Option.map_some']
      apply congrArg (List.cons (PEvent.typingStop ind.userId ind.chatId now))
      rw [ih hN.2 _]
      simp only [broadcastPresenceUpdate_typing]
      apply List.filterMap_congr
      intro k' hk'
      have hne : k ≠ k' := fun hEq => hN.1 (hEq ▸ hk')
      rw [mapGet_mapDelete_ne _ hne]

/-- Full characterization of `cleanupExpiredTypingIndicators`: expired
entries are removed (non-expired kept, in order) and exactly one
`typing_stop` is handed to the broadcast engine per expired entry, in
registry order. -/
theorem cleanup_spec (now : Nat) (st : PresenceState)
    (hN : (mapKeys st.typingIndicators).Nodup) :
    (cleanupExpiredTypingIndicators now st).1.typingIndicators
      = st.typingIndicators.filter (fun p => !typingExpired now p.2)
    ∧ (cleanupExpiredTypingIndicators now st).2
      = (st.typingIndicators.filter (fun p => typingExpired now p.2)).map
          (fun p => PEvent.typingStop p.2.userId p.2.chatId now) := by
  constructor
  · rw [show (cleanupExpiredTypingIndicators now st).1.typingIndicators
        = mapDeleteAll ((st.typingIndicators.filter
            (fun p => typingExpired now p.2)).map Prod.fst) st.typingIndicators from
        cleanupLoop_typing now _ st]
    rw [mapDeleteAll_eq_filter _ hN]
    apply List.filter_congr
    intro p hp
    rcases Bool.eq_false_or_eq_true (typingExpired now p.2) with hT | hF
    · have hIn : p.1 ∈ (st.typingIndicators.filter
          (fun p => typingExpired now p.2)).map Prod.fst :=
        List.mem_map_of_mem _ (List.mem_filter.mpr ⟨hp, hT⟩)
      simp [hT, hIn]
    · have hOut : p.1 ∉ (st.typingIndicators.filter
          (fun p => typingExpired now p.2)).map Prod.fst := by
        intro hMem
        obtain ⟨q, hq, hq1⟩ := List.mem_map.mp hMem
        have hql := List.mem_filter.mp hq
        have hqp : q = p := entry_eq_of_nodup hN hql.1 hp hq1
        rw [hqp, hF] at hql
        exact absurd hql.2 (by simp)
      simp [hF, hOut]
  · rw [show (cleanupExpiredTypingIndicators now st).2
        = ((st.typingIndicators.filter (fun p => typingExpired now p.2)).map
            Prod.fst).filterMap (fun k => (mapGet k st.typingIndicators).map
            (fun ind => PEvent.typingStop ind.userId ind.chatId now)) from
        cleanupLoop_events now _ (hN.sublist (List.Sublist.map Prod.fst
          (List.filter_sublist _))) st]
    rw [List.filterMap_map]
    apply filterMap_all_some
    intro p hp
    have hpl := List.mem_filter.mp hp
    have hget : mapGet p.1 st.typingIndicators = some p.2 :=
      mapGet_of_mem_nodup hN (by simpa using hpl.1)
    simp [Function.comp, hget]

/-- Claim C5: a typing indicator recorded at time T and never explicitly
stopped is still reported (and survives a sweep) strictly before T+10s
with no `typing_stop` for its pair, while a sweep strictly after T+10s
removes it and hands exactly one `typing_stop` for that (user, chat) pair
to the broadcast engine. -/
theorem claim_C5_typing_expiry (st : PresenceState) (u c : String) (T now1 now2 : Nat)
    (hN : (mapKeys st.typingIndicators).Nodup)
    (hWF : ∀ p ∈ st.typingIndicators, p.1 = mkTypingKey p.2.userId p.2.chatId)
    (hk : mapGet (mkTypingKey u c) st.typingIndicators = some ⟨u, c, T⟩)
    (h9 : now1 < T + 10000) (h11 : T + 10000 < now2) :
    (⟨u, c, T⟩ : TypingIndicator) ∈ getTypingIndicators c st
    ∧ mapGet (mkTypingKey u c) (cleanupExpiredTypingIndicators now1 st).1.typingIndicators
        = some ⟨u, c, T⟩
    ∧ stopsFor u c (cleanupExpiredTypingIndicators now1 st).2 = 0
    ∧ mapGet (mkTypingKey u c) (cleanupExpiredTypingIndicators now2 st).1.typingIndicators
        = none
    ∧ stopsFor u c (cleanupExpiredTypingIndicators now2 st).2 = 1 := by
  have hmem : (mkTypingKey u c, (⟨u, c, T⟩ : TypingIndicator)) ∈ st.typingIndicators :=
    mem_of_mapGet hk
  have hexp1 : typingExpired now1 (⟨u, c, T⟩ : TypingIndicator) = false := by
    simp only [typingExpired, decide_eq_false_iff_not, not_lt]
    omega
  have hexp2 : typingExpired now2 (⟨u, c, T⟩ : TypingIndicator) = true := by
    simp only [typingExpired, decide_eq_true_eq]
    omega
  have hUniq : ∀ x ∈ st.typingIndicators,
      (x.2.userId == u && x.2.chatId == c) = true
        → x = (mkTypingKey u c, (⟨u, c, T⟩ : TypingIndicator)) := by
    intro x hx hpred
    simp only [Bool.and_eq_true, beq_iff_eq] at hpred
    have hx1 : x.1 = mkTypingKey u c := by
      rw [hWF x hx, hpred.1, hpred.2]
    have hgx : mapGet x.1 st.typingIndicators = some x.2 :=
      mapGet_of_mem_nodup hN (by simpa using hx)
    rw [hx1] at hgx
    have hx2 : x.2 = (⟨u, c, T⟩ : TypingIndicator) :=
      Option.some.inj (hgx.symm.trans hk)
    exact Prod.ext hx1 hx2
  have hEntN : st.typingIndicators.Nodup := List.Nodup.of_map Prod.fst hN
  refine ⟨?_, ?_, ?_, ?_, ?_⟩
  · exact List.mem_filter.mpr ⟨List.mem_map_of_mem Prod.snd hmem, by simp⟩
  · rw [(cleanup_spec now1 st hN).1]
    exact mapGet_filter_of_mem hN hmem _ (by simp [hexp1])
  · rw [(cleanup_spec now1 st hN).2]
    simp only [stopsFor]
    rw [List.filter_map, List.length_map, List.length_eq_zero]
    apply List.filter_eq_nil_iff.mpr
    intro x hx
    have hxl := List.mem_filter.mp hx
    intro hpred
    have hxe := hUniq x hxl.1 (by simpa [isStopFor, Function.comp] using hpred)
    have hxExp : typingExpired now1 (⟨u, c, T⟩ : TypingIndicator) = true := by
      have hx2 := hxl.2
      rw [hxe] at hx2
      exact hx2
    rw [hexp1] at hxExp
    exact Bool.false_ne_true hxExp
  · rw [(cleanup_spec now2 st hN).1]
    apply (mapGet_eq_none_iff _ _).mpr
    intro hMem
    simp only [mapKeys, List.mem_map] at hMem
    obtain ⟨q, hq, hq1⟩ := hMem
    have hql := List.mem_filter.mp hq
    have hgq : mapGet q.1 st.typingIndicators = some q.2 :=
      mapGet_of_mem_nodup hN (by simpa using hql.1)
    rw [hq1] at hgq
    have hq2 : q.2 = (⟨u, c, T⟩ : TypingIndicator) := Option.some.inj (hgq.symm.trans hk)
    rw [hq2, hexp2] at hql
    exact absurd hql.2 (by simp)
  · rw [(cleanup_spec now2 st hN).2]
    simp only [stopsFor]
    rw [List.filter_map, List.length_map]
    rw [filter_eq_singleton_of_unique (hEntN.filter _)
      (List.mem_filter.mpr ⟨hmem, hexp2⟩)
      (by simp [isStopFor, Function.comp])
      (by
        intro x hx hpred
        exact hUniq x (List.mem_filter.mp hx).1
          (by simpa [isStopFor, Function.comp] using hpred))]
    rfl

/-- Witness for C5: indicator set at T=0, still live at a 9s sweep, gone
with one typing_stop after an 11s sweep. -/
theorem claim_C5_witness :
    ((mapKeys presenceStC5.typingIndicators).Nodup
      ∧ (∀ p ∈ presenceStC5.typingIndicators, p.1 = mkTypingKey p.2.userId p.2.chatId)
      ∧ mapGet (mkTypingKey "u1" "c1") presenceStC5.typingIndicators
          = some ⟨"u1", "c1", 0⟩
      ∧ 9000 < 0 + 10000 ∧ 0 + 10000 < 11000)
    ∧ (⟨"u1", "c1", 0⟩ : TypingIndicator) ∈ getTypingIndicators "c1" presenceStC5
    ∧ mapGet (mkTypingKey "u1" "c1")
        (cleanupExpiredTypingIndicators 9000 presenceStC5).1.typingIndicators
        = some ⟨"u1", "c1", 0⟩
    ∧ stopsFor "u1" "c1" (cleanupExpiredTypingIndicators 9000 presenceStC5).2 = 0
    ∧ mapGet (mkTypingKey "u1" "c1")
        (cleanupExpiredTypingIndicators 11000 presenceStC5).1.typingIndicators = none
    ∧ stopsFor "u1" "c1" (cleanupExpiredTypingIndicators 11000 presenceStC5).2 = 1 := by
  have h := claim_C5_typing_expiry presenceStC5 "u1" "c1" 0 9000 11000
    (by decide) (by decide) (by decide) (by decide) (by decide)
  exact ⟨⟨by decide, by decide, by decide, by decide, by decide⟩,
    h.1, h.2.1, h.2.2.1, h.2.2.2.1, h.2.2.2.2⟩

/-! ### Sweep lemmas for the presence-staleness pass -/

theorem mapGet_clearPresenceTyping_ne {u u' : String} (up : List (String × UserPresence))
    (h : u' ≠ u) : mapGet u (clearPresenceTyping u' up) = mapGet u up := by
  unfold clearPresenceTyping
  cases hm : mapGet u' up with
  | none => rfl
  | some p => exact mapGet_mapSet_ne _ _ h

theorem clearPresenceTyping_keys (u' : String) (up : List (String × UserPresence)) :
    mapKeys (clearPresenceTyping u' up) = mapKeys up := by
  unfold clearPresenceTyping
  cases hm : mapGet u' up with
  | none => rfl
  | some p =>
    exact mapKeys_mapSet_present _ ((mapGet_isSome_iff_mem _ _).mp (by simp [hm]))

theorem clearPresenceTyping_uid (u' : String) (up : List (String × UserPresence))
    (hUid : ∀ q ∈ up, q.2.userId = q.1) :
    ∀ q ∈ clearPresenceTyping u' up, q.2.userId = q.1 := by
  unfold clearPresenceTyping
  cases hm : mapGet u' up with
  | none => exact hUid
  | some p =>
    intro q hq
    rcases mem_mapSet hq with h1 | h2
    · rw [h1]
      simpa using hUid _ (mem_of_mapGet hm)
    · exact hUid q h2

theorem cleanupLoop_presence_keys (now : Nat) :
    ∀ (ks : List String) (st : PresenceState),
      mapKeys (cleanupLoop now ks st).1.userPresence = mapKeys st.userPresence := by
  intro ks
  induction ks with
  | nil => intro st; rfl
  | cons k rest ih =>
    intro st
    cases hget : mapGet k st.typingIndicators with
    | none =>
      simp only [cleanupLoop, hget]
      exact ih st
    | some ind =>
      simp only [cleanupLoop, hget]
      rw [ih _, broadcastPresenceUpdate_userPresence]
      exact clearPresenceTyping_keys _ _

theorem cleanupLoop_uid (now : Nat) :
    ∀ (ks : List String) (st : PresenceState),
      (∀ q ∈ st.userPresence, q.2.userId = q.1) →
      ∀ q ∈ (cleanupLoop now ks st).1.userPresence, q.2.userId = q.1 := by
  intro ks
  induction ks with
  | nil => intro st h; exact h
  | cons k rest ih =>
    intro st h
    cases hget : mapGet k st.typingIndicators with
    | none =>
      simp only [cleanupLoop, hget]
      exact ih st h
    | some ind =>
      simp only [cleanupLoop, hget]
      apply ih
      intro q hq
      rw [broadcastPresenceUpdate_userPresence] at hq
      exact clearPresenceTyping_uid ind.userId st.userPresence h q hq

theorem cleanupLoop_presence_pres (now : Nat) (u : String)
    (orig : List (String × TypingIndicator)) :
    ∀ (ks : List String),
      (∀ k ∈ ks, ∀ ind : TypingIndicator, (k, ind) ∈ orig → ind.userId ≠ u) →
      ∀ (st : PresenceState), List.Sublist st.typingIndicators orig →
        mapGet u (cleanupLoop now ks st).1.userPresence = mapGet u st.userPresence := by
  intro ks
  induction ks with
  | nil => intro _ st _; rfl
  | cons k rest ih =>
    intro hks st hsub
    cases hget : mapGet k st.typingIndicators with
    | none =>
      simp only [cleanupLoop, hget]
      exact ih (fun k' h' => hks k' (List.mem_cons_of_mem _ h')) st hsub
    | some ind =>
      simp only [cleanupLoop, hget]
      have hmem : (k, ind) ∈ orig := hsub.subset (mem_of_mapGet hget)
      have hne : ind.userId ≠ u := hks k (List.mem_cons_self _ _) ind hmem
      have hsub2 : List.Sublist ((broadcastPresenceUpdate
          (PEvent.typingStop ind.userId ind.chatId now)
          { st with typingIndicators := mapDelete k st.typingIndicators,
                    userPresence := clearPresenceTyping ind.userId st.userPresence
          }).1).typingIndicators orig := by
        rw [broadcastPresenceUpdate_typing]
        exact List.Sublist.trans (mapDelete_sublist k st.typingIndicators) hsub
      rw [ih (fun k' h' => hks k' (List.mem_cons_of_mem _ h')) _ hsub2,
          broadcastPresenceUpdate_userPresence]
      exact mapGet_clearPresenceTyping_ne _ hne

theorem cleanupLoop_no_presence_update (now : Nat) (u : String) :
    ∀ (ks : List String) (st : PresenceState),
      updatesFor u (cleanupLoop now ks st).2 = 0 := by
  intro ks
  induction ks with
  | nil => intro st; rfl
  | cons k rest ih =>
    intro st
    cases hget : mapGet k st.typingIndicators with
    | none =>
      simp only [cleanupLoop, hget]
      exact ih st
    | some ind =>
      simp only [cleanupLoop, hget]
      simpa [updatesFor, List.filter_cons, isUpdateFor] using ih _

theorem demoteCond_eq_sub_form (now : Nat) (p : UserPresence) :
    demoteCond now p
      = (decide (p.lastSeenAt < now - 300000) && (p.status == "online")) := by
  unfold demoteCond
  exact congrArg₂ Bool.and (decide_eq_decide.mpr (by omega)) rfl

theorem demoteLoop_spec (now : Nat) :
    ∀ (entries pre : List (String × UserPresence)) (st : PresenceState),
      st.userPresence = pre ++ entries →
      (mapKeys (pre ++ entries)).Nodup →
      (demoteLoop now entries st).1.userPresence
        = pre ++ entries.map (fun q =>
            if demoteCond now q.2 then (q.1, { q.2 with status := "offline" }) else q)
      ∧ (demoteLoop now entries st).2
        = (entries.filter (fun q => demoteCond now q.2)).map
            (fun q => PEvent.presenceUpdate { q.2 with status := "offline" }) := by
  intro entries
  induction entries with
  | nil =>
    intro pre st hEq _
    refine ⟨?_, rfl⟩
    show st.userPresence = pre ++ List.map _ []
    simpa using hEq
  | cons q rest ih =>
    intro pre st hEq hN
    have hu_pre : q.1 ∉ mapKeys pre := by
      intro hmem
      have hN' : (mapKeys pre ++ q.1 :: mapKeys rest).Nodup := by
        simpa [mapKeys, List.map_append] using hN
      exact (List.nodup_append.mp hN').2.2 hmem (by simp)
    cases hc : demoteCond now q.2 with
    | true =>
      have hEntry : demoteEntry now q st
          = ((broadcastPresenceUpdate
              (PEvent.presenceUpdate { q.2 with status := "offline" })
              { st with userPresence :=
                  mapSet q.1 { q.2 with status := "offline" } st.userPresence }).1,
             some (PEvent.presenceUpdate { q.2 with status := "offline" })) := by
        simp only [demoteEntry, hc]
      have hset : mapSet q.1 { q.2 with status := "offline" } st.userPresence
          = (pre ++ [(q.1, { q.2 with status := "offline" })]) ++ rest := by
        rw [hEq, mapSet_append_skip _ _ hu_pre]
        simp [mapSet]
      have ihres := ih (pre ++ [(q.1, { q.2 with status := "offline" })])
        (demoteEntry now q st).1
        (by rw [hEntry, broadcastPresenceUpdate_userPresence]; exact hset)
        (by simpa [mapKeys, List.map_append] using hN)
      constructor
      · show (demoteLoop now (q :: rest) st).1.userPresence = _
        simp only [demoteLoop]
        rw [ihres.1]
        simp [hc]
      · show (demoteLoop now (q :: rest) st).2 = _
        simp only [demoteLoop]
        rw [ihres.2, List.filter_cons_of_pos (by simpa using hc), List.map_cons, hEntry]
        simp
    | false =>
      have hEntry : demoteEntry now q st = (st, none) := by
        simp only [demoteEntry, hc]
      have ihres := ih (pre ++ [q]) (demoteEntry now q st).1
        (by rw [hEntry]; rw [hEq]; simp)
        (by simpa [mapKeys, List.map_append] using hN)
      constructor
      · show (demoteLoop now (q :: rest) st).1.userPresence = _
        simp only [demoteLoop]
        rw [ihres.1]
        simp [hc]
      · show (demoteLoop now (q :: rest) st).2 = _
        simp only [demoteLoop]
        rw [ihres.2, List.filter_cons_of_neg (by simp [hc]), hEntry]
        simp

theorem updatesFor_append (u : String) (a b : List PEvent) :
    updatesFor u (a ++ b) = updatesFor u a + updatesFor u b := by
  simp [updatesFor, List.filter_append]

theorem demote_state (u : String) (p : UserPresence)
    (entries : List (String × UserPresence)) (hp : mapGet u entries = some p) (now : Nat) :
    mapGet u (entries.map (fun q =>
        if demoteCond now q.2 then (q.1, { q.2 with status := "offline" }) else q))
      = some (demoteRecord now p) := by
  rw [show entries.map (fun q =>
        if demoteCond now q.2 then (q.1, { q.2 with status := "offline" }) else q)
      = entries.map (fun q => (q.1, demoteRecord now q.2)) from
    List.map_congr_left (by
      intro q _
      unfold demoteRecord
      cases hc : demoteCond now q.2 <;> simp [hc])]
  rw [mapGet_map_value, hp]
  rfl

theorem demote_count (u : String) (p : UserPresence)
    (entries : List (String × UserPresence)) (hN : (mapKeys entries).Nodup)
    (hUid : ∀ q ∈ entries, q.2.userId = q.1)
    (hp : mapGet u entries = some p) (now : Nat) :
    updatesFor u ((entries.filter (fun q => demoteCond now q.2)).map
        (fun q => PEvent.presenceUpdate { q.2 with status := "offline" }))
      = if demoteCond now p then 1 else 0 := by
  have hpu : p.userId = u := hUid (u, p) (mem_of_mapGet hp)
  have hUniqE : ∀ x ∈ entries, (x.2.userId == u) = true → x = (u, p) := by
    intro x hx hxu
    have hx1 : x.1 = u := by
      rw [← hUid x hx]
      exact beq_iff_eq.mp hxu
    have hgx : mapGet x.1 entries = some x.2 :=
      mapGet_of_mem_nodup hN (by simpa using hx)
    rw [hx1] at hgx
    exact Prod.ext hx1 (Option.some.inj (hgx.symm.trans hp))
  unfold updatesFor
  rw [List.filter_map, List.length_map]
  have hfc : (entries.filter (fun q => demoteCond now q.2)).filter
      (isUpdateFor u ∘ fun q => PEvent.presenceUpdate { q.2 with status := "offline" })
      = (entries.filter (fun q => demoteCond now q.2)).filter (fun x => x.2.userId == u) :=
    List.filter_congr (fun x _ => rfl)
  rw [hfc]
  cases hc : demoteCond now p with
  | true =>
    rw [if_pos rfl]
    rw [filter_eq_singleton_of_unique ((List.Nodup.of_map Prod.fst hN).filter _)
      (List.mem_filter.mpr ⟨mem_of_mapGet hp, hc⟩)
      (by simp [hpu])
      (fun x hx hxp => hUniqE x (List.mem_filter.mp hx).1 hxp)]
    rfl
  | false =>
    rw [if_neg (by simp)]
    rw [List.length_eq_zero]
    apply List.filter_eq_nil_iff.mpr
    intro x hx hxp
    have hxe := hUniqE x (List.mem_filter.mp hx).1 (by simpa using hxp)
    have hcx := (List.mem_filter.mp hx).2
    rw [hxe] at hcx
    rw [hc] at hcx
    exact Bool.false_ne_true hcx

/-- Counterexample to claim C6: the sweep does modify a user whose status
is `away` — the typing-expiry pass of `alarm` clears the typing flags on
their presence record when one of their typing indicators has expired. -/
theorem claim_C6_counterexample :
    presenceRecC6.status = "away"
    ∧ mapGet "u1" (alarm 20000 presenceStC6).1.userPresence
        = some { presenceRecC6 with isTypingFlag := some false, typingInChatId := none }
    ∧ ({ presenceRecC6 with isTypingFlag := some false, typingInChatId := none }
        : UserPresence) ≠ presenceRecC6 := by
  refine ⟨rfl, by decide, by decide⟩

/-- Claim C6 as amended: for every user holding no expired typing
indicator at sweep time, the sweep behaves exactly as claimed — an
`online` user whose last activity is within the 5-minute window keeps an
unchanged record and gets no `presence_update`; an `online` user whose
last activity is older than 5 minutes is set `offline` with exactly one
`presence_update`; `away`/`offline` users are not modified and get no
`presence_update`.  (A user holding an expired typing indicator
additionally has the typing flags of their record cleared by the
typing-expiry pass of the same sweep, which emits `typing_stop`, not
`presence_update`.) -/
theorem claim_C6_amended_staleness_sweep (now : Nat) (st : PresenceState) (u : String)
    (p : UserPresence)
    (hNup : (mapKeys st.userPresence).Nodup)
    (hNti : (mapKeys st.typingIndicators).Nodup)
    (hUid : ∀ q ∈ st.userPresence, q.2.userId = q.1)
    (hp : mapGet u st.userPresence = some p)
    (hNoExp : ∀ q ∈ st.typingIndicators, q.2.userId = u → typingExpired now q.2 = false) :
    (p.status = "online" → ¬(p.lastSeenAt + 300000 < now) →
      mapGet u (alarm now st).1.userPresence = some p
        ∧ updatesFor u (alarm now st).2 = 0)
    ∧ (p.status = "online" → p.lastSeenAt + 300000 < now →
      mapGet u (alarm now st).1.userPresence = some { p with status := "offline" }
        ∧ updatesFor u (alarm now st).2 = 1)
    ∧ (p.status ≠ "online" →
      mapGet u (alarm now st).1.userPresence = some p
        ∧ updatesFor u (alarm now st).2 = 0) := by
  have hks : ∀ k ∈ (st.typingIndicators.filter
      (fun q => typingExpired now q.2)).map Prod.fst,
      ∀ ind : TypingIndicator, (k, ind) ∈ st.typingIndicators → ind.userId ≠ u := by
    intro k hk ind hind hu'
    obtain ⟨q, hq, hq1⟩ := List.mem_map.mp hk
    have hql := List.mem_filter.mp hq
    have hqe : q = (k, ind) := entry_eq_of_nodup hNti hql.1 hind hq1
    have hExp : typingExpired now ind = true := by
      have h2 := hql.2
      rw [hqe] at h2
      exact h2
    rw [hNoExp (k, ind) hind hu'] at hExp
    exact Bool.false_ne_true hExp
  have hpres1 : mapGet u (cleanupExpiredTypingIndicators now st).1.userPresence
      = mapGet u st.userPresence :=
    cleanupLoop_presence_pres now u st.typingIndicators _ hks st (List.Sublist.refl _)
  have hkeys1 : mapKeys (cleanupExpiredTypingIndicators now st).1.userPresence
      = mapKeys st.userPresence := cleanupLoop_presence_keys now _ st
  have hUid1 : ∀ q ∈ (cleanupExpiredTypingIndicators now st).1.userPresence,
      q.2.userId = q.1 := cleanupLoop_uid now _ st hUid
  have hz1 : updatesFor u (cleanupExpiredTypingIndicators now st).2 = 0 :=
    cleanupLoop_no_presence_update now u _ st
  have hget1 : mapGet u (cleanupExpiredTypingIndicators now st).1.userPresence = some p := by
    rw [hpres1]
    exact hp
  have hNod1 : (mapKeys (([] : List (String × UserPresence))
      ++ (cleanupExpiredTypingIndicators now st).1.userPresence)).Nodup := by
    simpa [hkeys1] using hNup
  have dspec := demoteLoop_spec now (cleanupExpiredTypingIndicators now st).1.userPresence []
    (cleanupExpiredTypingIndicators now st).1 rfl hNod1
  have hstate : mapGet u (alarm now st).1.userPresence = some (demoteRecord now p) := by
    show mapGet u (demoteLoop now (cleanupExpiredTypingIndicators now st).1.userPresence
      (cleanupExpiredTypingIndicators now st).1).1.userPresence = _
    rw [dspec.1, List.nil_append]
    exact demote_state u p _ hget1 now
  have hcount : updatesFor u (alarm now st).2 = (if demoteCond now p then 1 else 0) := by
    show updatesFor u ((cleanupExpiredTypingIndicators now st).2
      ++ (demoteLoop now (cleanupExpiredTypingIndicators now st).1.userPresence
          (cleanupExpiredTypingIndicators now st).1).2) = _
    rw [updatesFor_append, hz1, dspec.2, Nat.zero_add]
    exact demote_count u p _ (by simpa [hkeys1] using hNup) hUid1 hget1 now
  refine ⟨?_, ?_, ?_⟩
  · intro _ htime
    have hc : demoteCond now p = false := by
      simp [demoteCond, htime]
    refine ⟨?_, ?_⟩
    · rw [hstate]
      unfold demoteRecord
      rw [if_neg (by simp [hc])]
    · rw [hcount, if_neg (by simp [hc])]
  · intro hon htime
    have hc : demoteCond now p = true := by
      simp [demoteCond, htime, hon]
    refine ⟨?_, ?_⟩
    · rw [hstate]
      unfold demoteRecord
      rw [if_pos (by simp [hc])]
    · rw [hcount, if_pos (by simp [hc])]
  · intro hnon
    have hs : (p.status == "online") = false := beq_eq_false_iff_ne.mpr hnon
    have hc : demoteCond now p = false := by
      simp [demoteCond, hs]
    refine ⟨?_, ?_⟩
    · rw [hstate]
      unfold demoteRecord
      rw [if_neg (by simp [hc])]
    · rw [hcount, if_neg (by simp [hc])]

/-- Witness for the amended C6: a stale online user with no typing
indicators is demoted with exactly one presence_update. -/
theorem claim_C6_witness :
    ((mapKeys presenceStC6w.userPresence).Nodup
      ∧ (mapKeys presenceStC6w.typingIndicators).Nodup
      ∧ (∀ q ∈ presenceStC6w.userPresence, q.2.userId = q.1)
      ∧ mapGet "u2" presenceStC6w.userPresence = some presenceRecC6w
      ∧ (∀ q ∈ presenceStC6w.typingIndicators, q.2.userId = "u2" →
          typingExpired 400000 q.2 = false)
      ∧ presenceRecC6w.status = "online" ∧ presenceRecC6w.lastSeenAt + 300000 < 400000)
    ∧ mapGet "u2" (alarm 400000 presenceStC6w).1.userPresence
        = some { presenceRecC6w with status := "offline" }
    ∧ updatesFor "u2" (alarm 400000 presenceStC6w).2 = 1 := by
  have h := (claim_C6_amended_staleness_sweep 400000 presenceStC6w "u2" presenceRecC6w
    (by decide) (by decide) (by decide) (by decide) (by decide)).2.1 rfl (by decide)
  exact ⟨⟨by decide, by decide, by decide, by decide, by decide, rfl, by decide⟩,
    h.1, h.2⟩

/-! ### Registry-invariant lemmas for the RoomCoordinator -/

theorem mem_mapKeys_mapDelete_ne {α : Type} {d cid : String} (l : List (String × α))
    (h : d ≠ cid) : d ∈ mapKeys (mapDelete cid l) ↔ d ∈ mapKeys l := by
  rw [← mapGet_isSome_iff_mem, ← mapGet_isSome_iff_mem,
      mapGet_mapDelete_ne l (Ne.symm h)]

theorem mem_mapDelete_entries {α : Type} {cid : String} {l : List (String × α)}
    (hN : (mapKeys l).Nodup) {p : String × α} (hp : p ∈ mapDelete cid l) :
    p ∈ l ∧ p.1 ≠ cid := by
  rw [mapDelete_eq_filter hN] at hp
  exact ⟨List.mem_of_mem_filter hp, by simpa using List.of_mem_filter hp⟩

theorem erase_eq_nil_of_mem {s : List String} {a : String} (ha : a ∈ s)
    (h : s.erase a = []) : s = [a] := by
  have hlen := List.length_erase_of_mem ha
  rw [h] at hlen
  have hone : s.length = 1 := by
    have hpos : 0 < s.length := List.length_pos.mpr (List.ne_nil_of_mem ha)
    simp at hlen
    omega
  obtain ⟨x, hx⟩ := List.length_eq_one.mp hone
  subst hx
  simp at ha
  rw [ha]

theorem owners_one_decomp {cid : String} {uc : List (String × List String)}
    (hN : (mapKeys uc).Nodup) (h : ownersL cid uc = 1) :
    ∃ uc1 u0 s0 uc2, uc = uc1 ++ (u0, s0) :: uc2 ∧ cid ∈ s0
      ∧ (∀ q ∈ uc1, cid ∉ q.2) ∧ (∀ q ∈ uc2, cid ∉ q.2) := by
  obtain ⟨e, he⟩ := List.length_eq_one.mp h
  have heF : e ∈ uc.filter (fun p => decide (cid ∈ p.2)) := by
    rw [he]
    exact List.mem_singleton_self e
  have heMem : e ∈ uc := List.mem_of_mem_filter heF
  have heIn : cid ∈ e.2 := by simpa using List.of_mem_filter heF
  have hUniq : ∀ q ∈ uc, cid ∈ q.2 → q = e := by
    intro q hq hcq
    have hqF : q ∈ uc.filter (fun p => decide (cid ∈ p.2)) :=
      List.mem_filter.mpr ⟨hq, by simpa using hcq⟩
    rw [he] at hqF
    simpa using hqF
  obtain ⟨uc1, uc2, hEq⟩ := List.append_of_mem heMem
  have hNod : (uc1 ++ e :: uc2).Nodup := by
    rw [← hEq]
    exact List.Nodup.of_map Prod.fst hN
  have hnot1 : e ∉ uc1 := by
    intro hmem
    exact (List.nodup_append.mp hNod).2.2 hmem (List.mem_cons_self _ _)
  have hnot2 : e ∉ uc2 := by
    have := (List.nodup_append.mp hNod).2.1
    exact (List.nodup_cons.mp this).1
  refine ⟨uc1, e.1, e.2, uc2, by simpa using hEq, heIn, ?_, ?_⟩
  · intro q hq hcq
    have : q = e := hUniq q (by rw [hEq]; exact List.mem_append_left _ hq) hcq
    exact hnot1 (this ▸ hq)
  · intro q hq hcq
    have : q = e := hUniq q
      (by rw [hEq]; exact List.mem_append_right _ (List.mem_cons_of_mem _ hq)) hcq
    exact hnot2 (this ▸ hq)

theorem inv_removeCore (cid : String) (st : ChatRoomState) (hInv : RegistryInv st) :
    RegistryInv { st with connections := mapDelete cid st.connections,
                          heartbeatIntervals := mapDelete cid st.heartbeatIntervals,
                          userConnections := (removeUserConn cid st.userConnections).1 } := by
  obtain ⟨h1, h2, h3, h4, h5⟩ := hInv
  by_cases hmem : cid ∈ mapKeys st.connections
  case neg =>
    have hnoset : ∀ q ∈ st.userConnections, cid ∉ q.2 := by
      intro q hq hc
      exact hmem (h4 q hq cid hc)
    have hruc : (removeUserConn cid st.userConnections).1 = st.userConnections := by
      rw [removeUserConn_none hnoset]
    have hdel : mapDelete cid st.connections = st.connections :=
      mapDelete_absent hmem
    refine ⟨?_, ?_, ?_, ?_, ?_⟩
    · show (mapKeys (mapDelete cid st.connections)).Nodup
      rw [hdel]
      exact h1
    · show (mapKeys (removeUserConn cid st.userConnections).1).Nodup
      rw [hruc]
      exact h2
    · show ∀ q ∈ (removeUserConn cid st.userConnections).1, q.2.Nodup
      rw [hruc]
      exact h3
    · show ∀ q ∈ (removeUserConn cid st.userConnections).1, ∀ d ∈ q.2,
        d ∈ mapKeys (mapDelete cid st.connections)
      rw [hruc, hdel]
      exact h4
    · show ∀ p ∈ mapDelete cid st.connections,
        ownersL p.1 (removeUserConn cid st.userConnections).1 = 1
      rw [hruc, hdel]
      exact h5
  case pos =>
    obtain ⟨w, hw⟩ := Option.isSome_iff_exists.mp
      ((mapGet_isSome_iff_mem cid st.connections).mpr hmem)
    have hOwn : ownersL cid st.userConnections = 1 := h5 (cid, w) (mem_of_mapGet hw)
    obtain ⟨uc1, u0, s0, uc2, hEqUc, hcs0, hn1, hn2⟩ := owners_one_decomp h2 hOwn
    have hs0Nodup : s0.Nodup := h3 (u0, s0)
      (by rw [hEqUc]; exact List.mem_append_right _ (List.mem_cons_self _ _))
    have hruc : removeUserConn cid st.userConnections
        = (if (s0.erase cid).isEmpty then (uc1 ++ uc2, some u0)
           else (uc1 ++ (u0, s0.erase cid) :: uc2, none)) := by
      rw [hEqUc]
      exact removeUserConn_decomp cid u0 s0 uc1 uc2 hn1 hcs0
    cases hEmp : (s0.erase cid).isEmpty with
    | true =>
      have hs0 : s0 = [cid] := erase_eq_nil_of_mem hcs0 (List.isEmpty_iff.mp hEmp)
      have hruc' : (removeUserConn cid st.userConnections).1 = uc1 ++ uc2 := by
        rw [hruc, hEmp]
        simp
      refine ⟨?_, ?_, ?_, ?_, ?_⟩
      · exact nodup_mapKeys_mapDelete cid h1
      · show (mapKeys (removeUserConn cid st.userConnections).1).Nodup
        rw [hruc']
        have hsub : List.Sublist (uc1 ++ uc2) (uc1 ++ (u0, s0) :: uc2) :=
          List.Sublist.append_left (List.sublist_cons_self _ _) uc1
        have h2' := h2
        rw [hEqUc] at h2'
        exact h2'.sublist (List.Sublist.map Prod.fst hsub)
      · intro q hq
        have hq2 : q ∈ uc1 ++ uc2 := by
          rw [← hruc']
          exact hq
        have hq' : q ∈ uc1 ++ (u0, s0) :: uc2 := by
          rcases List.mem_append.mp hq2 with h | h
          · exact List.mem_append_left _ h
          · exact List.mem_append_right _ (List.mem_cons_of_mem _ h)
        exact h3 q (hEqUc ▸ hq')
      · intro q hq d hd
        have hq2 : q ∈ uc1 ++ uc2 := by
          rw [← hruc']
          exact hq
        have hcidq : cid ∉ q.2 := by
          rcases List.mem_append.mp hq2 with h | h
          · exact hn1 q h
          · exact hn2 q h
        have hq' : q ∈ uc1 ++ (u0, s0) :: uc2 := by
          rcases List.mem_append.mp hq2 with h | h
          · exact List.mem_append_left _ h
          · exact List.mem_append_right _ (List.mem_cons_of_mem _ h)
        have hdK : d ∈ mapKeys st.connections := h4 q (hEqUc ▸ hq') d hd
        have hdne : d ≠ cid := fun hEq => hcidq (hEq ▸ hd)
        exact (mem_mapKeys_mapDelete_ne _ hdne).mpr hdK
      · intro p hp
        obtain ⟨hpl, hpne⟩ := mem_mapDelete_entries h1 hp
        have h5p := h5 p hpl
        rw [hEqUc] at h5p
        show ownersL p.1 (removeUserConn cid st.userConnections).1 = 1
        rw [hruc']
        have hps0 : p.1 ∉ s0 := by
          rw [hs0]
          simpa using hpne
        rw [ownersL_append, ownersL_cons] at h5p
        rw [ownersL_append]
        rw [if_neg hps0] at h5p
        omega
    | false =>
      have hruc' : (removeUserConn cid st.userConnections).1
          = uc1 ++ (u0, s0.erase cid) :: uc2 := by
        rw [hruc, hEmp]
        simp
      refine ⟨?_, ?_, ?_, ?_, ?_⟩
      · exact nodup_mapKeys_mapDelete cid h1
      · show (mapKeys (removeUserConn cid st.userConnections).1).Nodup
        rw [hruc']
        have h2' := h2
        rw [hEqUc] at h2'
        simpa [mapKeys, List.map_append] using h2'
      · intro q hq
        have hq2 : q ∈ uc1 ++ (u0, s0.erase cid) :: uc2 := by
          rw [← hruc']
          exact hq
        rcases List.mem_append.mp hq2 with h | h
        · exact h3 q (hEqUc ▸ List.mem_append_left _ h)
        · rcases List.mem_cons.mp h with h' | h'
          · rw [h']
            exact List.Nodup.erase cid hs0Nodup
          · exact h3 q (hEqUc ▸ List.mem_append_right _ (List.mem_cons_of_mem _ h'))
      · intro q hq d hd
        have hq2 : q ∈ uc1 ++ (u0, s0.erase cid) :: uc2 := by
          rw [← hruc']
          exact hq
        rcases List.mem_append.mp hq2 with h | h
        · have hdK := h4 q (hEqUc ▸ List.mem_append_left _ h) d hd
          have hdne : d ≠ cid := fun hEq => hn1 q h (hEq ▸ hd)
          exact (mem_mapKeys_mapDelete_ne _ hdne).mpr hdK
        · rcases List.mem_cons.mp h with h' | h'
          · have hd' : d ∈ s0.erase cid := by
              rw [h'] at hd
              exact hd
            have hdd := (hs0Nodup.mem_erase_iff).mp hd'
            have hdK := h4 (u0, s0)
              (hEqUc ▸ List.mem_append_right _ (List.mem_cons_self _ _)) d hdd.2
            exact (mem_mapKeys_mapDelete_ne _ hdd.1).mpr hdK
          · have hdK := h4 q
              (hEqUc ▸ List.mem_append_right _ (List.mem_cons_of_mem _ h')) d hd
            have hdne : d ≠ cid := fun hEq => hn2 q h' (hEq ▸ hd)
            exact (mem_mapKeys_mapDelete_ne _ hdne).mpr hdK
      · intro p hp
        obtain ⟨hpl, hpne⟩ := mem_mapDelete_entries h1 hp
        have h5p := h5 p hpl
        rw [hEqUc] at h5p
        show ownersL p.1 (removeUserConn cid st.userConnections).1 = 1
        rw [hruc']
        have hiff : (p.1 ∈ s0.erase cid) ↔ (p.1 ∈ s0) := by
          rw [hs0Nodup.mem_erase_iff]
          exact ⟨fun h => h.2, fun h => ⟨hpne, h⟩⟩
        rw [ownersL_append, ownersL_cons] at h5p
        rw [ownersL_append, ownersL_cons]
        by_cases hin : p.1 ∈ s0
        · rw [if_pos hin] at h5p
          rw [if_pos (hiff.mpr hin)]
          omega
        · rw [if_neg hin] at h5p
          rw [if_neg (fun hc => hin (hiff.mp hc))]
          omega

theorem foldPairs_fst {σ ε : Type} (remover : String → σ → σ × List ε) :
    ∀ (ids : List String) (st : σ) (acc : List ε),
    (ids.foldl (fun acc2 c =>
        let r1 := remover c acc2.1
        (r1.1, acc2.2 ++ r1.2)) (st, acc)).1
      = ids.foldl (fun s c => (remover c s).1) st := by
  intro ids
  induction ids with
  | nil =>
    intro st acc
    rfl
  | cons c rest ih =>
    intro st acc
    simp only [List.foldl_cons]
    exact ih _ _

theorem broadcastWith_fst
    (remover : String → ChatRoomState → ChatRoomState × List (String × RoomEvent))
    (ev : RoomEvent) (st : ChatRoomState) :
    (broadcastWith remover ev st).1
      = (broadcastScan ev st.connections).2.foldl (fun s c => (remover c s).1) st :=
  foldPairs_fst remover (broadcastScan ev st.connections).2 st []

theorem foldl_state_inv {σ : Type} (P : σ → Prop) (f : σ → String → σ)
    (hf : ∀ c s, P s → P (f s c)) :
    ∀ (ids : List String) (st : σ), P st → P (ids.foldl f st) := by
  intro ids
  induction ids with
  | nil =>
    intro st h
    exact h
  | cons c rest ih =>
    intro st h
    simp only [List.foldl_cons]
    exact ih _ (hf c st h)

theorem inv_removeConnection (now : Nat) :
    ∀ (fuel : Nat) (cid : String) (st : ChatRoomState), RegistryInv st →
      RegistryInv (removeConnection fuel now cid st).1 := by
  intro fuel
  induction fuel with
  | zero =>
    intro cid st h
    exact h
  | succ f ih =>
    intro cid st h
    cases hruc : (removeUserConn cid st.userConnections).2 with
    | none =>
      simp only [removeConnection, hruc]
      exact inv_removeCore cid st h
    | some u =>
      simp only [removeConnection, hruc]
      rw [broadcastWith_fst]
      exact foldl_state_inv RegistryInv _ (fun c s hs => ih c s hs) _ _
        (inv_removeCore cid st h)

theorem inv_registerConnection (cid uid : String) (ws : WsState) (st : ChatRoomState)
    (hInv : RegistryInv st) (hfresh : mapGet cid st.connections = none) :
    RegistryInv (registerConnection cid uid ws st) := by
  obtain ⟨h1, h2, h3, h4, h5⟩ := hInv
  have hckey : cid ∉ mapKeys st.connections := (mapGet_eq_none_iff cid st.connections).mp hfresh
  have hconn : (registerConnection cid uid ws st).connections
      = st.connections ++ [(cid, ws)] := by
    show mapSet cid ws st.connections = st.connections ++ [(cid, ws)]
    exact mapSet_absent ws hfresh
  have hnoset : ∀ q ∈ st.userConnections, cid ∉ q.2 := by
    intro q hq hc
    exact hckey (h4 q hq cid hc)
  have hconnN : ((registerConnection cid uid ws st).connections.map Prod.fst).Nodup := by
    rw [hconn]
    rw [List.map_append, List.nodup_append]
    refine ⟨h1, by simp, ?_⟩
    intro a ha hb
    simp only [List.map_cons, List.map_nil, List.mem_singleton] at hb
    exact hckey (hb ▸ ha)
  have hKconn : ∀ d, d ∈ mapKeys st.connections
      → d ∈ mapKeys (registerConnection cid uid ws st).connections := by
    intro d hd
    rw [show mapKeys (registerConnection cid uid ws st).connections
        = (registerConnection cid uid ws st).connections.map Prod.fst from rfl, hconn,
      List.map_append]
    exact List.mem_append_left _ hd
  have hKcid : cid ∈ mapKeys (registerConnection cid uid ws st).connections := by
    rw [show mapKeys (registerConnection cid uid ws st).connections
        = (registerConnection cid uid ws st).connections.map Prod.fst from rfl, hconn,
      List.map_append]
    simp
  cases hget : mapGet uid st.userConnections with
  | some s =>
    have hmemE : (uid, s) ∈ st.userConnections := mem_of_mapGet hget
    have hnos : cid ∉ s := hnoset (uid, s) hmemE
    have hset : setAdd cid s = s ++ [cid] := by
      simp [setAdd, hnos]
    have huidK : uid ∈ mapKeys st.userConnections := by
      rw [← mapGet_isSome_iff_mem, hget]
      rfl
    have huc : (registerConnection cid uid ws st).userConnections
        = mapSet uid (s ++ [cid]) st.userConnections := by
      show (let uc0 := if (mapGet uid st.userConnections).isSome then st.userConnections
                       else mapSet uid [] st.userConnections
            match mapGet uid uc0 with
            | some s2 => mapSet uid (setAdd cid s2) uc0
            | none => uc0)
          = mapSet uid (s ++ [cid]) st.userConnections
      simp only [hget, Option.isSome_some, if_true, hset]
    obtain ⟨l1, l2, hEq, hNk⟩ := mapGet_decomp hget
    have hucEq : (registerConnection cid uid ws st).userConnections
        = l1 ++ (uid, s ++ [cid]) :: l2 := by
      rw [huc, hEq]
      exact mapSet_decomp (s ++ [cid]) s hNk
    have hsN : s.Nodup := h3 (uid, s) hmemE
    refine ⟨hconnN, ?_, ?_, ?_, ?_⟩
    · show ((registerConnection cid uid ws st).userConnections.map Prod.fst).Nodup
      rw [huc]
      have : mapKeys (mapSet uid (s ++ [cid]) st.userConnections)
          = mapKeys st.userConnections := mapKeys_mapSet_present _ huidK
      simp only [mapKeys] at this
      rw [this]
      exact h2
    · intro q hq
      rw [huc] at hq
      rcases mem_mapSet hq with h' | h'
      · rw [h']
        show (s ++ [cid]).Nodup
        rw [List.nodup_append]
        refine ⟨hsN, by simp, ?_⟩
        intro a ha hb
        simp only [List.mem_singleton] at hb
        exact hnos (hb ▸ ha)
      · exact h3 q h'
    · intro q hq d hd
      rw [huc] at hq
      rcases mem_mapSet hq with h' | h'
      · have hd' : d ∈ s ++ [cid] := by
          rw [h'] at hd
          exact hd
        rcases List.mem_append.mp hd' with hds | hdc
        · exact hKconn d (h4 (uid, s) hmemE d hds)
        · simp only [List.mem_singleton] at hdc
          exact hdc ▸ hKcid
      · exact hKconn d (h4 q h' d hd)
    · intro p hp
      rw [hconn] at hp
      rcases List.mem_append.mp hp with hpo | hpc
      · have hpk : p.1 ∈ mapKeys st.connections := List.mem_map_of_mem Prod.fst hpo
        have hpne : p.1 ≠ cid := fun hEq2 => hckey (hEq2 ▸ hpk)
        have h5p := h5 p hpo
        rw [hEq, ownersL_append, ownersL_cons] at h5p
        rw [hucEq, ownersL_append, ownersL_cons]
        have hiff : (p.1 ∈ s ++ [cid]) ↔ (p.1 ∈ s) := by
          simp [hpne]
        by_cases hin : p.1 ∈ s
        · rw [if_pos hin] at h5p
          rw [if_pos (hiff.mpr hin)]
          omega
        · rw [if_neg hin] at h5p
          rw [if_neg (fun hc => hin (hiff.mp hc))]
          omega
      · simp only [List.mem_singleton] at hpc
        rw [hpc, hucEq, ownersL_append, ownersL_cons]
        have hz1 : ownersL cid l1 = 0 := ownersL_eq_zero (fun q hq =>
          hnoset q (hEq ▸ List.mem_append_left _ hq))
        have hz2 : ownersL cid l2 = 0 := ownersL_eq_zero (fun q hq =>
          hnoset q (hEq ▸ List.mem_append_right _ (List.mem_cons_of_mem _ hq)))
        rw [hz1, hz2, if_pos (by simp)]
  | none =>
    have huidNK : uid ∉ mapKeys st.userConnections :=
      (mapGet_eq_none_iff uid st.userConnections).mp hget
    have h0 : mapSet uid ([] : List String) st.userConnections
        = st.userConnections ++ [(uid, [])] := mapSet_absent [] hget
    have huc : (registerConnection cid uid ws st).userConnections
        = st.userConnections ++ [(uid, [cid])] := by
      show (let uc0 := if (mapGet uid st.userConnections).isSome then st.userConnections
                       else mapSet uid [] st.userConnections
            match mapGet uid uc0 with
            | some s2 => mapSet uid (setAdd cid s2) uc0
            | none => uc0)
          = st.userConnections ++ [(uid, [cid])]
      simp only [hget, Option.isSome_none, Bool.false_eq_true, if_false, h0]
      rw [mapGet_append]
      simp only [hget]
      have hone : mapGet uid [(uid, ([] : List String))] = some [] := by
        simp [mapGet]
      rw [hone]
      show mapSet uid (setAdd cid []) (st.userConnections ++ [(uid, [])])
        = st.userConnections ++ [(uid, [cid])]
      rw [mapSet_append_skip _ _ huidNK]
      simp [mapSet, setAdd]
    refine ⟨hconnN, ?_, ?_, ?_, ?_⟩
    · show ((registerConnection cid uid ws st).userConnections.map Prod.fst).Nodup
      rw [huc, List.map_append, List.nodup_append]
      refine ⟨h2, by simp, ?_⟩
      intro a ha hb
      simp only [List.map_cons, List.map_nil, List.mem_singleton] at hb
      exact huidNK (hb ▸ ha)
    · intro q hq
      rw [huc] at hq
      rcases List.mem_append.mp hq with h' | h'
      · exact h3 q h'
      · simp only [List.mem_singleton] at h'
        rw [h']
        simp
    · intro q hq d hd
      rw [huc] at hq
      rcases List.mem_append.mp hq with h' | h'
      · exact hKconn d (h4 q h' d hd)
      · simp only [List.mem_singleton] at h'
        have hd' : d ∈ [cid] := by
          rw [h'] at hd
          exact hd
        simp only [List.mem_singleton] at hd'
        exact hd' ▸ hKcid
    · intro p hp
      rw [hconn] at hp
      rcases List.mem_append.mp hp with hpo | hpc
      · have hpk : p.1 ∈ mapKeys st.connections := List.mem_map_of_mem Prod.fst hpo
        have hpne : p.1 ≠ cid := fun hEq2 => hckey (hEq2 ▸ hpk)
        have h5p := h5 p hpo
        rw [huc, ownersL_append, ownersL_cons]
        have hz : ownersL p.1 ([] : List (String × List String)) = 0 := rfl
        rw [hz, if_neg (by simp [hpne])]
        omega
      · simp only [List.mem_singleton] at hpc
        rw [hpc, huc, ownersL_append, ownersL_cons]
        have hz1 : ownersL cid st.userConnections = 0 := ownersL_eq_zero hnoset
        have hz : ownersL cid ([] : List (String × List String)) = 0 := rfl
        rw [hz1, hz, if_pos (by simp)]

theorem inv_applyRoomOps (fuel now : Nat) :
    ∀ (ops : List RoomOp) (st : ChatRoomState), RegistryInv st →
      admissibleOps fuel now ops st = true → RegistryInv (applyRoomOps fuel now ops st) := by
  intro ops
  induction ops with
  | nil =>
    intro st h _
    exact h
  | cons op rest ih =>
    intro st h hadm
    cases op with
    | register cid uid ws =>
      simp only [admissibleOps, Bool.and_eq_true] at hadm
      have hstep : RegistryInv (registerConnection cid uid ws st) :=
        inv_registerConnection cid uid ws st h (Option.isNone_iff_eq_none.mp hadm.1)
      exact ih _ hstep hadm.2
    | unregister cid =>
      simp only [admissibleOps, Bool.and_eq_true] at hadm
      exact ih _ (inv_removeConnection now fuel cid st h) hadm.2

/-- Claim C2: after every finite sequence of register (fresh-id subscribe)
and unregister (close, error, failed heartbeat or broadcast-prune)
operations applied to a room coordinator state satisfying the registry
invariant, a connection id is a key of the id-to-stream map exactly when it
appears in some user's connection set, and every such id is counted by
exactly one user's set. -/
theorem claim_C2_registry_invariant (fuel now : Nat) (ops : List RoomOp)
    (st : ChatRoomState) (hInv : RegistryInv st)
    (hAdm : admissibleOps fuel now ops st = true) (cid : String) :
    ((mapGet cid (applyRoomOps fuel now ops st).connections).isSome
        ↔ ∃ q ∈ (applyRoomOps fuel now ops st).userConnections, cid ∈ q.2)
      ∧ ((mapGet cid (applyRoomOps fuel now ops st).connections).isSome
        → ownersL cid (applyRoomOps fuel now ops st).userConnections = 1) := by
  obtain ⟨h1, h2, h3, h4, h5⟩ := inv_applyRoomOps fuel now ops st hInv hAdm
  constructor
  · constructor
    · intro hs
      obtain ⟨w, hw⟩ := Option.isSome_iff_exists.mp hs
      have hown := h5 (cid, w) (mem_of_mapGet hw)
      have hown2 : (List.filter (fun p => decide (cid ∈ p.2))
          (applyRoomOps fuel now ops st).userConnections).length = 1 := hown
      obtain ⟨e, he⟩ := List.length_eq_one.mp hown2
      have heF : e ∈ List.filter (fun p => decide (cid ∈ p.2))
          (applyRoomOps fuel now ops st).userConnections := by
        rw [he]
        exact List.mem_singleton_self e
      exact ⟨e, List.mem_of_mem_filter heF, by simpa using List.of_mem_filter heF⟩
    · rintro ⟨q, hq, hcq⟩
      exact (mapGet_isSome_iff_mem _ _).mpr (h4 q hq cid hcq)
  · intro hs
    obtain ⟨w, hw⟩ := Option.isSome_iff_exists.mp hs
    exact h5 (cid, w) (mem_of_mapGet hw)

theorem claim_C2_witness :
    (RegistryInv roomStEmpty ∧ admissibleOps 5 99 roomOpsC2 roomStEmpty = true)
      ∧ (((mapGet "c1" (applyRoomOps 5 99 roomOpsC2 roomStEmpty).connections).isSome
            ↔ ∃ q ∈ (applyRoomOps 5 99 roomOpsC2 roomStEmpty).userConnections, "c1" ∈ q.2)
          ∧ ((mapGet "c1" (applyRoomOps 5 99 roomOpsC2 roomStEmpty).connections).isSome
            → ownersL "c1" (applyRoomOps 5 99 roomOpsC2 roomStEmpty).userConnections = 1)) :=
  ⟨⟨by decide, by decide⟩,
    claim_C2_registry_invariant 5 99 roomOpsC2 roomStEmpty (by decide) (by decide) "c1"⟩

/-- Claim C8, evaluated at the failing input: posting
`{content:"hi", type:"text"}` to `/api/chat/c1/message` forwards pathname
`/chat/c1/message`, which the Durable Object dispatch does not match, so
the whole flow returns 404 with no delivery and no store call; a direct
`/message` call on the DO does deliver one event with a single id and
timestamp to every connection, but the store helper would insert a row
under its own freshly drawn id (`i1`), never the broadcast id (`i0`). -/
theorem claim_C8_route_never_persists_broadcast_id :
    routeSendMessage 3 ["i0", "i1"] 1000 "c1" "u1" ⟨"hi", "text"⟩ roomStC8 []
      = (404, roomStC8, [], [])
    ∧ ((handleMessageRequest 3 "i0" 1000 "u1" ⟨"hi", "text"⟩ roomStC8).2.map
        (fun s => (s.2.evId, s.2.timestamp)))
      = [("i0", 1000), ("i0", 1000)]
    ∧ (persistMessageToDatabase "i1" 1000 "c1" "u1" ⟨"hi", "text"⟩ []).map StoredMessage.msgId
      = ["i1"] := by
  exact ⟨by decide, by decide, by decide⟩

/-! ### Room broadcast engine: the two-pass postcondition of
`broadcastMessage`, whose second pass nests offline broadcasts -/

theorem connAbsent_removeConnection (now : Nat) :
    ∀ (fuel : Nat) (cid : String) (s : ChatRoomState) (d : String),
      mapGet d s.connections = none →
      mapGet d (removeConnection fuel now cid s).1.connections = none := by
  intro fuel
  induction fuel with
  | zero =>
    intro cid s d h
    exact h
  | succ f ih =>
    intro cid s d h
    have hcore : mapGet d (mapDelete cid s.connections) = none := by
      rw [mapGet_eq_none_iff] at h ⊢
      intro hm
      exact h ((mapKeys_mapDelete_sublist cid s.connections).subset hm)
    cases hruc : (removeUserConn cid s.userConnections).2 with
    | none =>
      simp only [removeConnection, hruc]
      exact hcore
    | some u =>
      simp only [removeConnection, hruc]
      rw [broadcastWith_fst]
      apply foldl_state_inv (fun s2 => mapGet d s2.connections = none) _
        (fun c s2 hs => ih c s2 d hs)
      exact hcore

theorem connSelf_removeConnection (now f : Nat) (cid : String) (s : ChatRoomState)
    (hN : (mapKeys s.connections).Nodup) :
    mapGet cid (removeConnection (f + 1) now cid s).1.connections = none := by
  have hcore : mapGet cid (mapDelete cid s.connections) = none := mapGet_mapDelete_self hN
  cases hruc : (removeUserConn cid s.userConnections).2 with
  | none =>
    simp only [removeConnection, hruc]
    exact hcore
  | some u =>
    simp only [removeConnection, hruc]
    rw [broadcastWith_fst]
    apply foldl_state_inv (fun s2 => mapGet cid s2.connections = none) _
      (fun c s2 hs => connAbsent_removeConnection now f c s2 cid hs)
    exact hcore

theorem connNodup_removeConnection (now : Nat) :
    ∀ (fuel : Nat) (cid : String) (s : ChatRoomState),
      (mapKeys s.connections).Nodup →
      (mapKeys (removeConnection fuel now cid s).1.connections).Nodup := by
  intro fuel
  induction fuel with
  | zero =>
    intro cid s h
    exact h
  | succ f ih =>
    intro cid s h
    have hcore : (mapKeys (mapDelete cid s.connections)).Nodup := nodup_mapKeys_mapDelete cid h
    cases hruc : (removeUserConn cid s.userConnections).2 with
    | none =>
      simp only [removeConnection, hruc]
      exact hcore
    | some u =>
      simp only [removeConnection, hruc]
      rw [broadcastWith_fst]
      apply foldl_state_inv (fun s2 => (mapKeys s2.connections).Nodup) _
        (fun c s2 hs => ih c s2 hs)
      exact hcore

theorem typing_removeConnection (now : Nat) :
    ∀ (fuel : Nat) (cid : String) (s : ChatRoomState),
      (removeConnection fuel now cid s).1.typingUsers = s.typingUsers := by
  intro fuel
  induction fuel with
  | zero =>
    intro cid s
    rfl
  | succ f ih =>
    intro cid s
    cases hruc : (removeUserConn cid s.userConnections).2 with
    | none =>
      simp only [removeConnection, hruc]
    | some u =>
      simp only [removeConnection, hruc]
      rw [broadcastWith_fst]
      have hfold : ∀ (ids : List String) (s2 : ChatRoomState),
          (ids.foldl (fun s3 c => (removeConnection f now c s3).1) s2).typingUsers
            = s2.typingUsers := by
        intro ids
        induction ids with
        | nil =>
          intro s2
          rfl
        | cons c rest ih2 =>
          intro s2
          simp only [List.foldl_cons]
          rw [ih2, ih]
      rw [hfold]

theorem notInSets_removeUserConn (d cid : String) :
    ∀ (uc : List (String × List String)), (∀ q ∈ uc, d ∉ q.2) →
      ∀ q ∈ (removeUserConn cid uc).1, d ∉ q.2 := by
  intro uc
  induction uc with
  | nil =>
    intro h q hq
    simp [removeUserConn] at hq
  | cons p rest ih =>
    intro h q hq
    obtain ⟨u, s⟩ := p
    by_cases hc : cid ∈ s
    · by_cases he : (s.erase cid).isEmpty = true
      · have hq2 : q ∈ rest := by
          simpa [removeUserConn, hc, he] using hq
        exact h q (List.mem_cons_of_mem _ hq2)
      · have hq2 : q ∈ (u, s.erase cid) :: rest := by
          simpa [removeUserConn, hc, he] using hq
        rcases List.mem_cons.mp hq2 with h1 | h2
        · rw [h1]
          intro hd
          exact h (u, s) (List.mem_cons_self _ _) (List.mem_of_mem_erase hd)
        · exact h q (List.mem_cons_of_mem _ h2)
    · have hq2 : q ∈ (u, s) :: (removeUserConn cid rest).1 := by
        simpa [removeUserConn, hc] using hq
      rcases List.mem_cons.mp hq2 with h1 | h2
      · rw [h1]
        exact h (u, s) (List.mem_cons_self _ _)
      · exact ih (fun q2 hq3 => h q2 (List.mem_cons_of_mem _ hq3)) q h2

theorem notInSets_removeConnection (now : Nat) :
    ∀ (fuel : Nat) (cid d : String) (s : ChatRoomState),
      (∀ q ∈ s.userConnections, d ∉ q.2) →
      ∀ q ∈ (removeConnection fuel now cid s).1.userConnections, d ∉ q.2 := by
  intro fuel
  induction fuel with
  | zero =>
    intro cid d s h
    exact h
  | succ f ih =>
    intro cid d s h
    have hcore : ∀ q ∈ (removeUserConn cid s.userConnections).1, d ∉ q.2 :=
      notInSets_removeUserConn d cid s.userConnections h
    cases hruc : (removeUserConn cid s.userConnections).2 with
    | none =>
      simp only [removeConnection, hruc]
      exact hcore
    | some u =>
      simp only [removeConnection, hruc]
      rw [broadcastWith_fst]
      apply foldl_state_inv (fun s2 => ∀ q ∈ s2.userConnections, d ∉ q.2) _
        (fun c s2 hs => ih c d s2 hs)
      exact hcore

theorem removeUserConn_keys_sublist (cid : String) :
    ∀ (uc : List (String × List String)),
      List.Sublist (mapKeys (removeUserConn cid uc).1) (mapKeys uc) := by
  intro uc
  induction uc with
  | nil =>
    simp [removeUserConn]
  | cons p rest ih =>
    obtain ⟨u, s⟩ := p
    by_cases hc : cid ∈ s
    · by_cases he : (s.erase cid).isEmpty = true
      · have hres : (removeUserConn cid ((u, s) :: rest)).1 = rest := by
          simp [removeUserConn, hc, he]
        rw [hres]
        exact List.sublist_cons_of_sublist _ (List.Sublist.refl _)
      · have hres : (removeUserConn cid ((u, s) :: rest)).1 = (u, s.erase cid) :: rest := by
          simp [removeUserConn, hc, he]
        rw [hres]
        exact List.Sublist.refl _
    · have hres : (removeUserConn cid ((u, s) :: rest)).1
          = (u, s) :: (removeUserConn cid rest).1 := by
        simp [removeUserConn, hc]
      rw [hres]
      exact List.Sublist.cons₂ _ ih

theorem userAbsent_removeConnection (now : Nat) :
    ∀ (fuel : Nat) (cid : String) (s : ChatRoomState) (d : String),
      mapGet d s.userConnections = none →
      mapGet d (removeConnection fuel now cid s).1.userConnections = none := by
  intro fuel
  induction fuel with
  | zero =>
    intro cid s d h
    exact h
  | succ f ih =>
    intro cid s d h
    have hcore : mapGet d (removeUserConn cid s.userConnections).1 = none := by
      rw [mapGet_eq_none_iff] at h ⊢
      intro hm
      exact h ((removeUserConn_keys_sublist cid s.userConnections).subset hm)
    cases hruc : (removeUserConn cid s.userConnections).2 with
    | none =>
      simp only [removeConnection, hruc]
      exact hcore
    | some u =>
      simp only [removeConnection, hruc]
      rw [broadcastWith_fst]
      apply foldl_state_inv (fun s2 => mapGet d s2.userConnections = none) _
        (fun c s2 hs => ih c s2 d hs)
      exact hcore

theorem hbAbsent_removeConnection (now : Nat) :
    ∀ (fuel : Nat) (cid : String) (s : ChatRoomState) (d : String),
      mapGet d s.heartbeatIntervals = none →
      mapGet d (removeConnection fuel now cid s).1.heartbeatIntervals = none := by
  intro fuel
  induction fuel with
  | zero =>
    intro cid s d h
    exact h
  | succ f ih =>
    intro cid s d h
    have hcore : mapGet d (mapDelete cid s.heartbeatIntervals) = none := by
      rw [mapGet_eq_none_iff] at h ⊢
      intro hm
      exact h ((mapKeys_mapDelete_sublist cid s.heartbeatIntervals).subset hm)
    cases hruc : (removeUserConn cid s.userConnections).2 with
    | none =>
      simp only [removeConnection, hruc]
      exact hcore
    | some u =>
      simp only [removeConnection, hruc]
      rw [broadcastWith_fst]
      apply foldl_state_inv (fun s2 => mapGet d s2.heartbeatIntervals = none) _
        (fun c s2 hs => ih c s2 d hs)
      exact hcore

theorem shrink_foldl (g : ChatRoomState → String → ChatRoomState)
    (hg : ∀ (c : String) (s : ChatRoomState), (mapKeys s.connections).Nodup →
        (∀ w, (c, w) ∈ s.connections → w.sendOk = false) →
        List.Sublist (g s c).connections s.connections
          ∧ ∀ p ∈ s.connections, p.2.sendOk = true → p ∈ (g s c).connections) :
    ∀ (ids : List String) (s : ChatRoomState), (mapKeys s.connections).Nodup →
      (∀ c ∈ ids, ∀ w, (c, w) ∈ s.connections → w.sendOk = false) →
      List.Sublist (ids.foldl g s).connections s.connections
        ∧ ∀ p ∈ s.connections, p.2.sendOk = true → p ∈ (ids.foldl g s).connections := by
  intro ids
  induction ids with
  | nil =>
    intro s hN hdead
    exact ⟨List.Sublist.refl _, fun p hp _ => hp⟩
  | cons c rest ih =>
    intro s hN hdead
    have hstep := hg c s hN (hdead c (List.mem_cons_self _ _))
    have hN2 : (mapKeys (g s c).connections).Nodup :=
      hN.sublist (List.Sublist.map Prod.fst hstep.1)
    have hdead2 : ∀ c2 ∈ rest, ∀ w, (c2, w) ∈ (g s c).connections → w.sendOk = false := by
      intro c2 hc2 w hw
      exact hdead c2 (List.mem_cons_of_mem _ hc2) w (hstep.1.subset hw)
    have hrest := ih (g s c) hN2 hdead2
    simp only [List.foldl_cons]
    exact ⟨hrest.1.trans hstep.1, fun p hp hopen => hrest.2 p (hstep.2 p hp hopen) hopen⟩

theorem shrink_removeConnection (now : Nat) :
    ∀ (fuel : Nat) (cid : String) (s : ChatRoomState),
      (mapKeys s.connections).Nodup →
      (∀ w, (cid, w) ∈ s.connections → w.sendOk = false) →
      List.Sublist (removeConnection fuel now cid s).1.connections s.connections
        ∧ ∀ p ∈ s.connections, p.2.sendOk = true
            → p ∈ (removeConnection fuel now cid s).1.connections := by
  intro fuel
  induction fuel with
  | zero =>
    intro cid s hN hcdead
    exact ⟨List.Sublist.refl _, fun p hp _ => hp⟩
  | succ f ih =>
    intro cid s hN hcdead
    have hsub0 : List.Sublist (mapDelete cid s.connections) s.connections :=
      mapDelete_sublist cid s.connections
    have hopen0 : ∀ p ∈ s.connections, p.2.sendOk = true
        → p ∈ mapDelete cid s.connections := by
      rintro ⟨a, w⟩ hp hopen
      have hne : a ≠ cid := by
        intro hEq
        have hw := hcdead w (hEq ▸ hp)
        rw [hw] at hopen
        exact Bool.noConfusion hopen
      rw [mapDelete_eq_filter hN]
      exact List.mem_filter.mpr ⟨hp, by simpa using hne⟩
    cases hruc : (removeUserConn cid s.userConnections).2 with
    | none =>
      simp only [removeConnection, hruc]
      exact ⟨hsub0, hopen0⟩
    | some u =>
      simp only [removeConnection, hruc]
      rw [broadcastWith_fst]
      have hN1 : (mapKeys (mapDelete cid s.connections)).Nodup :=
        nodup_mapKeys_mapDelete cid hN
      have hdead1 : ∀ c ∈ (broadcastScan (offlineEvent u now) (mapDelete cid s.connections)).2,
          ∀ w, (c, w) ∈ mapDelete cid s.connections → w.sendOk = false := by
        intro c hc w hw
        rw [broadcastScan_snd] at hc
        obtain ⟨q, hq, hq1⟩ := List.mem_map.mp hc
        have hqf := List.of_mem_filter hq
        have hqm := List.mem_of_mem_filter hq
        have hEq : (c, w) = q := entry_eq_of_nodup hN1 hw hqm (by rw [hq1])
        rw [show w = q.2 from congrArg Prod.snd hEq]
        simpa using hqf
      have hfold := shrink_foldl (fun s2 c => (removeConnection f now c s2).1)
        (fun c s2 hN2 hd2 => ih c s2 hN2 hd2)
        (broadcastScan (offlineEvent u now) (mapDelete cid s.connections)).2
        { s with connections := mapDelete cid s.connections,
                 heartbeatIntervals := mapDelete cid s.heartbeatIntervals,
                 userConnections := (removeUserConn cid s.userConnections).1 }
        hN1 hdead1
      exact ⟨hfold.1.trans hsub0, fun p hp hopen => hfold.2 p (hopen0 p hp hopen) hopen⟩

theorem removeFold_absent (now f : Nat) :
    ∀ (ids : List String) (s : ChatRoomState), (mapKeys s.connections).Nodup →
      ∀ cid ∈ ids,
        mapGet cid
          ((ids.foldl (fun s2 c => (removeConnection (f + 1) now c s2).1) s)).connections
          = none := by
  intro ids
  induction ids with
  | nil =>
    intro s hN cid hcid
    simp at hcid
  | cons c rest ih =>
    intro s hN cid hcid
    simp only [List.foldl_cons]
    rcases List.mem_cons.mp hcid with h1 | h2
    · subst h1
      apply foldl_state_inv (fun s2 => mapGet cid s2.connections = none) _
        (fun c2 s2 hs => connAbsent_removeConnection now (f + 1) c2 s2 cid hs)
      exact connSelf_removeConnection now f cid s hN
    · exact ih _ (connNodup_removeConnection now (f + 1) c s hN) cid h2

theorem sublist_filter_sendOk : ∀ {l2 l : List (String × WsState)},
    List.Sublist l2 l → (mapKeys l).Nodup →
    (∀ p ∈ l, p.2.sendOk = true → p ∈ l2) →
    (∀ p ∈ l, p.2.sendOk = false → p.1 ∉ mapKeys l2) →
    l2 = l.filter (fun p => p.2.sendOk) := by
  intro l2 l hsub
  induction hsub with
  | slnil =>
    intro _ _ _
    rfl
  | cons a hs ih =>
    intro hN hopen hdead
    rw [show mapKeys (a :: _) = a.1 :: mapKeys _ from rfl, List.nodup_cons] at hN
    cases hao : a.2.sendOk with
    | true =>
      exact absurd
        (List.mem_map_of_mem Prod.fst (hs.subset (hopen a (List.mem_cons_self _ _) hao)))
        hN.1
    | false =>
      rw [List.filter_cons_of_neg (by simp [hao])]
      exact ih hN.2 (fun p hp ho => hopen p (List.mem_cons_of_mem _ hp) ho)
        (fun p hp hd => hdead p (List.mem_cons_of_mem _ hp) hd)
  | cons₂ a hs ih =>
    intro hN hopen hdead
    rw [show mapKeys (a :: _) = a.1 :: mapKeys _ from rfl, List.nodup_cons] at hN
    cases hao : a.2.sendOk with
    | true =>
      rw [List.filter_cons_of_pos (by simp [hao])]
      have htail := ih hN.2 (fun p hp ho => by
          rcases List.mem_cons.mp (hopen p (List.mem_cons_of_mem _ hp) ho) with h1 | h2
          · exact absurd (h1 ▸ List.mem_map_of_mem Prod.fst hp) hN.1
          · exact h2)
        (fun p hp hd => by
          have hnd := hdead p (List.mem_cons_of_mem _ hp) hd
          rw [show mapKeys (a :: _) = a.1 :: mapKeys _ from rfl] at hnd
          simp only [List.mem_cons, not_or] at hnd
          exact hnd.2)
      rw [htail]
    | false =>
      exfalso
      have hnd := hdead a (List.mem_cons_self _ _) hao
      rw [show mapKeys (a :: _) = a.1 :: mapKeys _ from rfl] at hnd
      simp at hnd

theorem broadcastMessage_spec (fuel now : Nat) (ev : RoomEvent) (st : ChatRoomState)
    (hfuel : 0 < fuel) (hN : (mapKeys st.connections).Nodup) :
    (∃ extra, (broadcastMessage fuel now ev st).2
        = (st.connections.filter (fun p => p.2.sendOk)).map (fun p => (p.1, ev)) ++ extra)
      ∧ (broadcastMessage fuel now ev st).1.connections
        = st.connections.filter (fun p => p.2.sendOk) := by
  obtain ⟨f, rfl⟩ : ∃ f, fuel = f + 1 := ⟨fuel - 1, by omega⟩
  constructor
  · refine ⟨((broadcastScan ev st.connections).2.foldl
        (fun acc2 c =>
          let r1 := removeConnection (f + 1) now c acc2.1
          (r1.1, acc2.2 ++ r1.2)) (st, ([] : List (String × RoomEvent)))).2, ?_⟩
    rw [show (broadcastMessage (f + 1) now ev st).2
        = (broadcastScan ev st.connections).1
          ++ ((broadcastScan ev st.connections).2.foldl
            (fun acc2 c =>
              let r1 := removeConnection (f + 1) now c acc2.1
              (r1.1, acc2.2 ++ r1.2)) (st, ([] : List (String × RoomEvent)))).2 from rfl]
    rw [broadcastScan_fst]
  · rw [show (broadcastMessage (f + 1) now ev st).1
        = (broadcastScan ev st.connections).2.foldl
            (fun s2 c => (removeConnection (f + 1) now c s2).1) st
        from broadcastWith_fst (removeConnection (f + 1) now) ev st]
    have hdeadTop : ∀ c ∈ (broadcastScan ev st.connections).2,
        ∀ w, (c, w) ∈ st.connections → w.sendOk = false := by
      intro c hc w hw
      rw [broadcastScan_snd] at hc
      obtain ⟨q, hq, hq1⟩ := List.mem_map.mp hc
      have hqf := List.of_mem_filter hq
      have hqm := List.mem_of_mem_filter hq
      have hEq : (c, w) = q := entry_eq_of_nodup hN hw hqm (by rw [hq1])
      rw [show w = q.2 from congrArg Prod.snd hEq]
      simpa using hqf
    have hshr := shrink_foldl (fun s2 c => (removeConnection (f + 1) now c s2).1)
      (fun c s2 hN2 hd2 => shrink_removeConnection now (f + 1) c s2 hN2 hd2)
      (broadcastScan ev st.connections).2 st hN hdeadTop
    have habs : ∀ p ∈ st.connections, p.2.sendOk = false →
        p.1 ∉ mapKeys ((broadcastScan ev st.connections).2.foldl
          (fun s2 c => (removeConnection (f + 1) now c s2).1) st).connections := by
      intro p hp hpd
      have hmemDead : p.1 ∈ (broadcastScan ev st.connections).2 := by
        rw [broadcastScan_snd]
        exact List.mem_map_of_mem Prod.fst (List.mem_filter.mpr ⟨hp, by simp [hpd]⟩)
      have habs1 := removeFold_absent now f (broadcastScan ev st.connections).2 st hN
        p.1 hmemDead
      rw [mapGet_eq_none_iff] at habs1
      exact habs1
    exact sublist_filter_sendOk hshr.1 hN hshr.2 habs

/-- Claim C1: a broadcast on a coordinator instance serializes the event
once and walks the registry; every connection whose transport reports open
and whose send succeeds receives exactly that event, every closed or
throwing connection is recorded dead during the pass and unregistered in a
second pass after iteration, so by the end of the call the registry holds
exactly the connections that delivered.  Stated for both engines: the
presence coordinator's `broadcastPresenceUpdate` (deliveries and final
subscriber registry are exactly the open subscribers) and the room's
`broadcastMessage` (the serialized event reaches exactly the open
connections, listed first before any deliveries of the offline broadcasts
nested in the second pass, and the final registry holds exactly the open
connections). -/
theorem claim_C1_broadcast_two_pass (ev : PEvent) (st : PresenceState)
    (hN : (mapKeys st.presenceSubscribers).Nodup)
    (fuel now : Nat) (rev : RoomEvent) (rst : ChatRoomState)
    (hfuel : 0 < fuel) (hNr : (mapKeys rst.connections).Nodup) :
    ((broadcastPresenceUpdate ev st).2
      = (st.presenceSubscribers.filter (fun p => p.2.sendOk)).map (fun p => (p.1, ev))
    ∧ (broadcastPresenceUpdate ev st).1.presenceSubscribers
      = st.presenceSubscribers.filter (fun p => p.2.sendOk))
    ∧ ((∃ extra, (broadcastMessage fuel now rev rst).2
        = (rst.connections.filter (fun p => p.2.sendOk)).map (fun p => (p.1, rev)) ++ extra)
    ∧ (broadcastMessage fuel now rev rst).1.connections
      = rst.connections.filter (fun p => p.2.sendOk)) := by
  refine ⟨⟨?_, ?_⟩, broadcastMessage_spec fuel now rev rst hfuel hNr⟩
  · exact broadcastScan_fst ev st.presenceSubscribers
  · show ((broadcastScan ev st.presenceSubscribers).2.foldl
        (fun acc cid => removePresenceSubscriber cid acc) st).presenceSubscribers = _
    rw [foldRemoveSub_subscribers, broadcastScan_snd, mapDeleteAll_eq_filter _ hN,
        deadKeys_filter_sendOk hN]

/-- Witness for C1 at a three-subscriber presence registry and a room
registry with one open and two dead connections, where the second pass
cascades a nested offline broadcast. -/
theorem claim_C1_witness :
    ((mapKeys presenceStC1.presenceSubscribers).Nodup ∧ 0 < 3
      ∧ (mapKeys roomStC1.connections).Nodup)
    ∧ (((broadcastPresenceUpdate (PEvent.typingStop "u" "c" 5) presenceStC1).2
        = (presenceStC1.presenceSubscribers.filter (fun p => p.2.sendOk)).map
            (fun p => (p.1, PEvent.typingStop "u" "c" 5))
      ∧ (broadcastPresenceUpdate (PEvent.typingStop "u" "c" 5)
            presenceStC1).1.presenceSubscribers
        = presenceStC1.presenceSubscribers.filter (fun p => p.2.sendOk))
    ∧ ((∃ extra, (broadcastMessage 3 9 (offlineEvent "ux" 9) roomStC1).2
        = (roomStC1.connections.filter (fun p => p.2.sendOk)).map
            (fun p => (p.1, offlineEvent "ux" 9)) ++ extra)
      ∧ (broadcastMessage 3 9 (offlineEvent "ux" 9) roomStC1).1.connections
        = roomStC1.connections.filter (fun p => p.2.sendOk))) :=
  ⟨⟨by decide, by decide, by decide⟩,
    claim_C1_broadcast_two_pass (PEvent.typingStop "u" "c" 5) presenceStC1 (by decide)
      3 9 (offlineEvent "ux" 9) roomStC1 (by decide) (by decide)⟩

/-- Claim C4 as amended: unregistering a user's last remaining connection
removes it from the connection, user-set and heartbeat maps and leaves the
typing state untouched, but additionally broadcasts one presence event
with status offline for that user: the offline event is delivered to
exactly the open remaining connections, and the delivery's second pass
prunes every dead remaining connection from the registry.  When every
remaining connection is healthy the bookkeeping is exact: only the closed
connection's entries disappear and the deliveries are exactly the offline
event to each remaining connection. -/
theorem claim_C4_amended_last_disconnect_broadcasts_offline (f now : Nat) (cid u : String)
    (st : ChatRoomState)
    (hNc : (mapKeys st.connections).Nodup)
    (hNu : (mapKeys st.userConnections).Nodup)
    (hNh : (mapKeys st.heartbeatIntervals).Nodup)
    (hu : mapGet u st.userConnections = some [cid])
    (hOnly : ∀ q ∈ st.userConnections, q.1 ≠ u → cid ∉ q.2) :
    ((removeConnection (f + 2) now cid st).1.typingUsers = st.typingUsers
    ∧ (removeConnection (f + 2) now cid st).1.connections
        = (mapDelete cid st.connections).filter (fun p => p.2.sendOk)
    ∧ mapGet cid (removeConnection (f + 2) now cid st).1.heartbeatIntervals = none
    ∧ mapGet u (removeConnection (f + 2) now cid st).1.userConnections = none
    ∧ (∀ q ∈ (removeConnection (f + 2) now cid st).1.userConnections, cid ∉ q.2)
    ∧ (∃ extra, (removeConnection (f + 2) now cid st).2
        = ((mapDelete cid st.connections).filter (fun p => p.2.sendOk)).map
            (fun p => (p.1, offlineEvent u now)) ++ extra))
    ∧ ((∀ p ∈ st.connections, p.1 ≠ cid → p.2 = WsState.openOk) →
        ((removeConnection (f + 2) now cid st).1.connections = mapDelete cid st.connections
        ∧ (removeConnection (f + 2) now cid st).1.heartbeatIntervals
            = mapDelete cid st.heartbeatIntervals
        ∧ (removeConnection (f + 2) now cid st).2
            = (mapDelete cid st.connections).map (fun p => (p.1, offlineEvent u now)))) := by
  obtain ⟨l1, l2, hEqUc, hNl1⟩ := mapGet_decomp hu
  have hl1 : ∀ q ∈ l1, cid ∉ q.2 := by
    intro q hq
    refine hOnly q (by rw [hEqUc]; exact List.mem_append_left _ hq) ?_
    intro hq1
    exact hNl1 (hq1 ▸ List.mem_map_of_mem Prod.fst hq)
  have hruc : removeUserConn cid st.userConnections = (l1 ++ l2, some u) := by
    rw [hEqUc, removeUserConn_decomp cid u [cid] l1 l2 hl1 (by simp)]
    simp
  have hstep : removeConnection (f + 2) now cid st
      = broadcastWith (removeConnection (f + 1) now) (offlineEvent u now)
          { st with connections := mapDelete cid st.connections,
                    heartbeatIntervals := mapDelete cid st.heartbeatIntervals,
                    userConnections := l1 ++ l2 } := by
    simp only [removeConnection, hruc]
  have hN1 : (mapKeys (mapDelete cid st.connections)).Nodup :=
    nodup_mapKeys_mapDelete cid hNc
  have hu2 : mapGet u (l1 ++ l2) = none := by
    rw [mapGet_append]
    have hg1 : mapGet u l1 = none := (mapGet_eq_none_iff u l1).mpr hNl1
    have hg2 : mapGet u l2 = none := by
      apply (mapGet_eq_none_iff u l2).mpr
      intro hMem
      rw [hEqUc] at hNu
      simp only [mapKeys, List.map_append, List.map_cons] at hNu
      have hNu2 := (List.nodup_append.mp hNu).2.1
      simp only [List.nodup_cons] at hNu2
      exact hNu2.1 (by simpa [mapKeys] using hMem)
    simp [hg1, hg2]
  have hnoset : ∀ q ∈ l1 ++ l2, cid ∉ q.2 := by
    intro q hq
    rcases List.mem_append.mp hq with h1 | h2
    · exact hl1 q h1
    · refine hOnly q (by rw [hEqUc]; exact List.mem_append_right _ (List.mem_cons_of_mem _ h2)) ?_
      intro hq1
      rw [hEqUc] at hNu
      simp only [mapKeys, List.map_append, List.map_cons] at hNu
      have hNu2 := (List.nodup_append.mp hNu).2.1
      simp only [List.nodup_cons] at hNu2
      exact hNu2.1 (hq1 ▸ List.mem_map_of_mem Prod.fst h2)
  constructor
  · rw [hstep]
    have hbm := broadcastMessage_spec (f + 1) now (offlineEvent u now)
      { st with connections := mapDelete cid st.connections,
                heartbeatIntervals := mapDelete cid st.heartbeatIntervals,
                userConnections := l1 ++ l2 }
      (by omega) hN1
    refine ⟨?_, hbm.2, ?_, ?_, ?_, hbm.1⟩
    · rw [show broadcastWith (removeConnection (f + 1) now) (offlineEvent u now)
            { st with connections := mapDelete cid st.connections,
                      heartbeatIntervals := mapDelete cid st.heartbeatIntervals,
                      userConnections := l1 ++ l2 }
          = broadcastMessage (f + 1) now (offlineEvent u now)
            { st with connections := mapDelete cid st.connections,
                      heartbeatIntervals := mapDelete cid st.heartbeatIntervals,
                      userConnections := l1 ++ l2 } from rfl]
      rw [show (broadcastMessage (f + 1) now (offlineEvent u now)
            { st with connections := mapDelete cid st.connections,
                      heartbeatIntervals := mapDelete cid st.heartbeatIntervals,
                      userConnections := l1 ++ l2 }).1
          = ((broadcastScan (offlineEvent u now) (mapDelete cid st.connections)).2.foldl
              (fun s2 c => (removeConnection (f + 1) now c s2).1)
              { st with connections := mapDelete cid st.connections,
                        heartbeatIntervals := mapDelete cid st.heartbeatIntervals,
                        userConnections := l1 ++ l2 })
          from broadcastWith_fst (removeConnection (f + 1) now) (offlineEvent u now) _]
      have hfold : ∀ (ids : List String) (s2 : ChatRoomState),
          (ids.foldl (fun s3 c => (removeConnection (f + 1) now c s3).1) s2).typingUsers
            = s2.typingUsers := by
        intro ids
        induction ids with
        | nil =>
          intro s2
          rfl
        | cons c rest ih2 =>
          intro s2
          simp only [List.foldl_cons]
          rw [ih2, typing_removeConnection]
      rw [hfold]
    · rw [show broadcastWith (removeConnection (f + 1) now) (offlineEvent u now)
            { st with connections := mapDelete cid st.connections,
                      heartbeatIntervals := mapDelete cid st.heartbeatIntervals,
                      userConnections := l1 ++ l2 }
          = broadcastMessage (f + 1) now (offlineEvent u now)
            { st with connections := mapDelete cid st.connections,
                      heartbeatIntervals := mapDelete cid st.heartbeatIntervals,
                      userConnections := l1 ++ l2 } from rfl]
      rw [show (broadcastMessage (f + 1) now (offlineEvent u now)
            { st with connections := mapDelete cid st.connections,
                      heartbeatIntervals := mapDelete cid st.heartbeatIntervals,
                      userConnections := l1 ++ l2 }).1
          = ((broadcastScan (offlineEvent u now) (mapDelete cid st.connections)).2.foldl
              (fun s2 c => (removeConnection (f + 1) now c s2).1)
              { st with connections := mapDelete cid st.connections,
                        heartbeatIntervals := mapDelete cid st.heartbeatIntervals,
                        userConnections := l1 ++ l2 })
          from broadcastWith_fst (removeConnection (f + 1) now) (offlineEvent u now) _]
      apply foldl_state_inv (fun s2 => mapGet cid s2.heartbeatIntervals = none) _
        (fun c s2 hs => hbAbsent_removeConnection now (f + 1) c s2 cid hs)
      exact mapGet_mapDelete_self hNh
    · rw [show broadcastWith (removeConnection (f + 1) now) (offlineEvent u now)
            { st with connections := mapDelete cid st.connections,
                      heartbeatIntervals := mapDelete cid st.heartbeatIntervals,
                      userConnections := l1 ++ l2 }
          = broadcastMessage (f + 1) now (offlineEvent u now)
            { st with connections := mapDelete cid st.connections,
                      heartbeatIntervals := mapDelete cid st.heartbeatIntervals,
                      userConnections := l1 ++ l2 } from rfl]
      rw [show (broadcastMessage (f + 1) now (offlineEvent u now)
            { st with connections := mapDelete cid st.connections,
                      heartbeatIntervals := mapDelete cid st.heartbeatIntervals,
                      userConnections := l1 ++ l2 }).1
          = ((broadcastScan (offlineEvent u now) (mapDelete cid st.connections)).2.foldl
              (fun s2 c => (removeConnection (f + 1) now c s2).1)
              { st with connections := mapDelete cid st.connections,
                        heartbeatIntervals := mapDelete cid st.heartbeatIntervals,
                        userConnections := l1 ++ l2 })
          from broadcastWith_fst (removeConnection (f + 1) now) (offlineEvent u now) _]
      apply foldl_state_inv (fun s2 => mapGet u s2.userConnections = none) _
        (fun c s2 hs => userAbsent_removeConnection now (f + 1) c s2 u hs)
      exact hu2
    · rw [show broadcastWith (removeConnection (f + 1) now) (offlineEvent u now)
            { st with connections := mapDelete cid st.connections,
                      heartbeatIntervals := mapDelete cid st.heartbeatIntervals,
                      userConnections := l1 ++ l2 }
          = broadcastMessage (f + 1) now (offlineEvent u now)
            { st with connections := mapDelete cid st.connections,
                      heartbeatIntervals := mapDelete cid st.heartbeatIntervals,
                      userConnections := l1 ++ l2 } from rfl]
      rw [show (broadcastMessage (f + 1) now (offlineEvent u now)
            { st with connections := mapDelete cid st.connections,
                      heartbeatIntervals := mapDelete cid st.heartbeatIntervals,
                      userConnections := l1 ++ l2 }).1
          = ((broadcastScan (offlineEvent u now) (mapDelete cid st.connections)).2.foldl
              (fun s2 c => (removeConnection (f + 1) now c s2).1)
              { st with connections := mapDelete cid st.connections,
                        heartbeatIntervals := mapDelete cid st.heartbeatIntervals,
                        userConnections := l1 ++ l2 })
          from broadcastWith_fst (removeConnection (f + 1) now) (offlineEvent u now) _]
      apply foldl_state_inv (fun s2 => ∀ q ∈ s2.userConnections, cid ∉ q.2) _
        (fun c s2 hs => notInSets_removeConnection now (f + 1) c cid s2 hs)
      exact hnoset
  · intro hOpen
    have hall : ∀ p ∈ mapDelete cid st.connections, p.2.sendOk = true := by
      intro p hp
      have hmem := (mapDelete_sublist cid st.connections).subset hp
      have hne : p.1 ≠ cid := by
        rw [mapDelete_eq_filter hNc] at hp
        simpa using List.of_mem_filter hp
      rw [hOpen p hmem hne]
      rfl
    have hdead : (broadcastScan (offlineEvent u now) (mapDelete cid st.connections)).2 = [] := by
      rw [broadcastScan_snd]
      rw [List.filter_eq_nil_iff.mpr (by
        intro p hp
        simp [hall p hp])]
      rfl
    have hsends : (broadcastScan (offlineEvent u now) (mapDelete cid st.connections)).1
        = (mapDelete cid st.connections).map (fun p => (p.1, offlineEvent u now)) := by
      rw [broadcastScan_fst, List.filter_eq_self.mpr hall]
    have hbw : broadcastWith (removeConnection (f + 1) now) (offlineEvent u now)
        { st with connections := mapDelete cid st.connections,
                  heartbeatIntervals := mapDelete cid st.heartbeatIntervals,
                  userConnections := l1 ++ l2 }
        = ({ st with connections := mapDelete cid st.connections,
                     heartbeatIntervals := mapDelete cid st.heartbeatIntervals,
                     userConnections := l1 ++ l2 },
           (mapDelete cid st.connections).map (fun p => (p.1, offlineEvent u now))) := by
      unfold broadcastWith
      simp only [hdead, hsends, List.foldl_nil, List.append_nil]
    rw [hstep, hbw]
    exact ⟨rfl, rfl, rfl⟩

/-- Witness for the amended C4, at a room where the closing user's offline
broadcast finds one dead remaining connection and prunes it (cascading a
second offline broadcast), while the typing set survives untouched. -/
theorem claim_C4_witness :
    ((mapKeys roomStC4d.connections).Nodup
      ∧ (mapKeys roomStC4d.userConnections).Nodup
      ∧ (mapKeys roomStC4d.heartbeatIntervals).Nodup
      ∧ mapGet "u1" roomStC4d.userConnections = some ["c1"]
      ∧ (∀ q ∈ roomStC4d.userConnections, q.1 ≠ "u1" → "c1" ∉ q.2))
    ∧ (((removeConnection 4 7 "c1" roomStC4d).1.typingUsers = roomStC4d.typingUsers
    ∧ (removeConnection 4 7 "c1" roomStC4d).1.connections
        = (mapDelete "c1" roomStC4d.connections).filter (fun p => p.2.sendOk)
    ∧ mapGet "c1" (removeConnection 4 7 "c1" roomStC4d).1.heartbeatIntervals = none
    ∧ mapGet "u1" (removeConnection 4 7 "c1" roomStC4d).1.userConnections = none
    ∧ (∀ q ∈ (removeConnection 4 7 "c1" roomStC4d).1.userConnections, "c1" ∉ q.2)
    ∧ (∃ extra, (removeConnection 4 7 "c1" roomStC4d).2
        = ((mapDelete "c1" roomStC4d.connections).filter (fun p => p.2.sendOk)).map
            (fun p => (p.1, offlineEvent "u1" 7)) ++ extra))
    ∧ ((∀ p ∈ roomStC4d.connections, p.1 ≠ "c1" → p.2 = WsState.openOk) →
        ((removeConnection 4 7 "c1" roomStC4d).1.connections
            = mapDelete "c1" roomStC4d.connections
        ∧ (removeConnection 4 7 "c1" roomStC4d).1.heartbeatIntervals
            = mapDelete "c1" roomStC4d.heartbeatIntervals
        ∧ (removeConnection 4 7 "c1" roomStC4d).2
            = (mapDelete "c1" roomStC4d.connections).map
                (fun p => (p.1, offlineEvent "u1" 7))))) :=
  ⟨⟨by decide, by decide, by decide, by decide, by decide⟩,
    claim_C4_amended_last_disconnect_broadcasts_offline 2 7 "c1" "u1" roomStC4d
      (by decide) (by decide) (by decide) (by decide) (by decide)⟩

end NearbyConnect
